import Mathlib

/-!
Verification development for the Phomemo D30 BLE Web UI repository.

The repository converts a rendered label canvas into the 1-bit raster format a
thermal label printer expects and streams it over Bluetooth in 128-byte
packets.  It contains several forked variants of the same pipeline:

* `src/beta/src/printer.js` — the printer framing layer (header, bit packing,
  chunked transport, terminator); embedded below in namespace `Beta`.
* the printer section of `src/unnamed/part_001` — an alternative printer
  layer whose bit packing is inverted relative to `Beta`; embedded in
  namespace `Part001`.
* `src/index.js` — the image pipeline (tone adjustment, dithering, hardware
  cleanup); embedded in namespace `App`.

Conventions of the embedding:

* A canvas / `ImageData` is `ImgData`: width, height and a flat row-major RGBA
  byte list (4 naturals per pixel), exactly the layout of
  `ctx.getImageData(...).data`.
* JavaScript numbers are embedded as `ℚ` (exact rationals).  Decimal literals
  such as `2.55` or `0.299` are read as exact decimal fractions; the
  double-precision rounding of the source is ignored.  Every concrete input
  used in a theorem below keeps all comparisons far away from the sub-ulp
  region, so the rational and floating-point evaluations branch identically.
* `Uint8Array`/`Uint8ClampedArray` stores are embedded with `List.set`, which
  silently drops out-of-range writes exactly as typed arrays do; reads are
  `List.getD` and out-of-range reads are handled with the explicit bound
  checks the source's semantics imply.
* `Math.random()` draws are made explicit as rational-valued streams passed
  to the functions that consume them.
-/

/-- Flat RGBA image buffer: the shape shared by an HTML canvas's `ImageData`
and by the `imgData` records of the pipeline. `data` is row-major, 4 bytes per
pixel (R, G, B, A), values 0–255. -/
structure ImgData where
  width : ℕ
  height : ℕ
  data : List ℕ
deriving DecidableEq, Repr

namespace ListFacts

/-- Reading a position that was just written, when it is in range. -/
theorem getD_set_self (l : List ℕ) (n v : ℕ) (h : n < l.length) :
    (l.set n v).getD n 0 = v := by
  simp [List.getD_eq_getElem?_getD, List.getElem?_set_self h]

/-- Writing one position does not change reads at another. -/
theorem getD_set_other (l : List ℕ) (m n v : ℕ) (h : m ≠ n) :
    (l.set m v).getD n 0 = l.getD n 0 := by
  simp [List.getD_eq_getElem?_getD, List.getElem?_set_ne h]

/-- Out-of-range reads default to 0. -/
theorem getD_oob (l : List ℕ) (j : ℕ) (h : l.length ≤ j) : l.getD j 0 = 0 := by
  simp [List.getD_eq_getElem?_getD, List.getElem?_eq_none h]

theorem getD_map (l : List ℕ) (f : ℕ → ℕ) (j : ℕ) (h : j < l.length) :
    (l.map f).getD j 0 = f (l.getD j 0) := by
  simp [List.getD_eq_getElem?_getD, List.getElem?_map]
  rw [List.getElem?_eq_getElem h]
  simp

theorem getD_range_map {α : Type} [Inhabited α] (n : ℕ) (f : ℕ → α) (j : ℕ) (h : j < n) :
    ((List.range n).map f).getD j default = f j := by
  rw [List.getD_eq_getElem?_getD]
  rw [List.getElem?_map, List.getElem?_range h]
  rfl

theorem getD_replicate (n j v : ℕ) (h : j < n) :
    (List.replicate n v).getD j 0 = v := by
  rw [List.getD_eq_getElem?_getD, List.getElem?_replicate]
  simp [h]

end ListFacts

/-! ## The beta printer layer (`src/beta/src/printer.js`) -/

namespace Beta

/-- `PACKET_SIZE_BYTES`: payload chunk size of the transport loop. -/
def PACKET_SIZE_BYTES : ℕ := 128

/-- `HEADER_DATA(mmWidth, bytes)`: the 10-byte print-session header.  The two
16-bit fields are little endian; storing `Math.floor(v / 256)` into a
`Uint8Array` slot wraps it modulo 256, which the extra `% 256` models. -/
def HEADER_DATA (mmWidth bytes : ℕ) : List ℕ :=
  [0x1b, 0x40, 0x1d, 0x76, 0x30, 0x00,
    mmWidth % 256, mmWidth / 256 % 256,
    bytes % 256, bytes / 256 % 256]

/-- `END_DATA`: the 3-byte terminator of a print session. -/
def END_DATA : List ℕ := [0x1b, 0x64, 0x00]

/-- `getWhitePixel(canvas, imageData, x, y)` of the beta printer: 1 if the
pixel at (x, y) is lighter than the 384 threshold (white), 0 otherwise.  When
the flat index runs past the RGBA buffer, the JavaScript reads give
`undefined`, the sum is `NaN`, and the `>` comparison is false — hence the
explicit in-range conjunct. -/
def getWhitePixel (c : ImgData) (x y : ℕ) : ℕ :=
  if (y * c.width + x) * 4 + 2 < c.data.length ∧
      384 < c.data.getD ((y * c.width + x) * 4) 0
            + c.data.getD ((y * c.width + x) * 4 + 1) 0
            + c.data.getD ((y * c.width + x) * 4 + 2) 0
  then 1 else 0

/-- One packed byte of the beta `getPrintData`: eight consecutive pixels of
row `i` starting at column `k8`, leftmost pixel in the most significant bit,
bit = `getWhitePixel` (1 when white). -/
def packByte (c : ImgData) (k8 i : ℕ) : ℕ :=
  getWhitePixel c (k8 + 0) i * 128 +
  getWhitePixel c (k8 + 1) i * 64 +
  getWhitePixel c (k8 + 2) i * 32 +
  getWhitePixel c (k8 + 3) i * 16 +
  getWhitePixel c (k8 + 4) i * 8 +
  getWhitePixel c (k8 + 5) i * 4 +
  getWhitePixel c (k8 + 6) i * 2 +
  getWhitePixel c (k8 + 7) i

/-- `getPrintData(canvas)` of the beta printer.  The output `Uint8Array` has
`(width / 8) * height` entries (`new Uint8Array` truncates a fractional
length, so `⌊w·h/8⌋`); the row loop runs `k` while `k < width / 8`, i.e.
`⌈w/8⌉` byte positions per row, and sequential `data[offset++] = …` stores
drop the writes that fall past the array, keeping exactly the first
`⌊w·h/8⌋` bytes.  Byte `off` therefore packs row `off / ⌈w/8⌉`, byte column
`off % ⌈w/8⌉`. -/
def getPrintData (c : ImgData) : List ℕ :=
  (List.range (c.width * c.height / 8)).map fun off =>
    packByte c (off % ((c.width + 7) / 8) * 8) (off / ((c.width + 7) / 8))

/-- A transport event: one characteristic write, or one `setTimeout` pacing
delay (milliseconds). -/
inductive Ev where
  | write (bytes : List ℕ)
  | delay (ms : ℕ)
deriving DecidableEq, Repr

/-- The chunk sequence produced by the packet loop of `printCanvas`: slices of
`PACKET_SIZE_BYTES` bytes taken from position 0, 128, 256, …; the loop breaks
exactly when a slice comes back empty. -/
def chunkList (d : List ℕ) : List (List ℕ) :=
  if h : d = [] then []
  else d.take PACKET_SIZE_BYTES :: chunkList (d.drop PACKET_SIZE_BYTES)
termination_by d.length
decreasing_by
  simp only [List.length_drop, PACKET_SIZE_BYTES]
  have : d.length ≠ 0 := fun hl => h (List.eq_nil_of_length_eq_zero hl)
  omega

/-- The packet phase of `printCanvas`: each chunk is written, then a 10 ms
pacing delay is awaited, until the empty slice breaks the loop. -/
def sendPackets (d : List ℕ) : List Ev :=
  (chunkList d).flatMap fun ch => [Ev.write ch, Ev.delay 10]

/-- The full transfer sequence of `printCanvas(characteristic, canvas)`:
header write, packet loop, terminator write. -/
def printCanvasTrace (c : ImgData) : List Ev :=
  Ev.write (HEADER_DATA (c.width / 8) ((getPrintData c).length / (c.width / 8)))
    :: (sendPackets (getPrintData c) ++ [Ev.write END_DATA])

end Beta

/-! ## Properties of the packet chunking -/

namespace Beta

theorem chunkList_nil : chunkList [] = [] := by
  rw [chunkList]; simp

theorem chunkList_cons (d : List ℕ) (h : d ≠ []) :
    chunkList d = d.take 128 :: chunkList (d.drop 128) := by
  rw [chunkList]; simp [h, PACKET_SIZE_BYTES]

/-- Combined shape facts about the chunk sequence, proved by strong induction
on the payload length: chunk count is `⌈L/128⌉`, all chunks except the last
hold 128 bytes, the last holds `((L-1) mod 128) + 1` bytes, and concatenating
the chunks restores the payload. -/
theorem chunkList_spec_aux : ∀ n d, List.length d ≤ n → d ≠ [] →
    (chunkList d).length = (d.length + 127) / 128 ∧
    (∀ i, i + 1 < (chunkList d).length → ((chunkList d).getD i []).length = 128) ∧
    ((chunkList d).getD ((chunkList d).length - 1) []).length = (d.length - 1) % 128 + 1 ∧
    (chunkList d).flatten = d := by
  intro n
  induction n with
  | zero =>
    intro d hle hne
    exact absurd (List.eq_nil_of_length_eq_zero (Nat.le_zero.mp hle)) hne
  | succ n ih =>
    intro d hle hne
    have hpos : 1 ≤ d.length := List.length_pos.mpr hne
    by_cases hsmall : d.length ≤ 128
    · have hdrop : d.drop 128 = [] := List.drop_eq_nil_of_le hsmall
      have hch : chunkList d = [d.take 128] := by
        rw [chunkList_cons d hne, hdrop, chunkList_nil]
      have htake : (d.take 128).length = d.length := by
        simp [List.length_take]; omega
      refine ⟨?_, ?_, ?_, ?_⟩
      · rw [hch]; simp; omega
      · intro i hi; rw [hch] at hi; simp at hi
      · rw [hch]; simp [htake]; omega
      · rw [hch]; simp [List.take_of_length_le hsmall]
    · have hbig : 128 < d.length := by omega
      have hdropne : d.drop 128 ≠ [] := by
        intro hnil
        have := congrArg List.length hnil
        simp [List.length_drop] at this
        omega
      have hdlen : (d.drop 128).length = d.length - 128 := by simp
      have hrec := ih (d.drop 128) (by simp; omega) hdropne
      have hch := chunkList_cons d hne
      have htail : (chunkList (d.drop 128)).length = (d.length - 128 + 127) / 128 := by
        rw [hrec.1, hdlen]
      have htake : (d.take 128).length = 128 := by simp [List.length_take]; omega
      refine ⟨?_, ?_, ?_, ?_⟩
      · rw [hch]; simp only [List.length_cons]
        rw [htail]; omega
      · intro i hi
        rw [hch] at hi ⊢
        cases i with
        | zero => simpa using htake
        | succ j =>
          simp only [List.getD_cons_succ]
          apply hrec.2.1
          simp only [List.length_cons] at hi
          omega
      · rw [hch]
        have hlen : (d.take 128 :: chunkList (d.drop 128)).length
            = (chunkList (d.drop 128)).length + 1 := by simp
        rw [hlen]
        have htpos : 1 ≤ (chunkList (d.drop 128)).length := by
          rw [htail]; omega
        have hidx : (chunkList (d.drop 128)).length + 1 - 1
            = ((chunkList (d.drop 128)).length - 1) + 1 := by omega
        rw [hidx, List.getD_cons_succ]
        rw [hrec.2.2.1, hdlen]
        omega
      · rw [hch]
        simp only [List.flatten_cons, hrec.2.2.2]
        exact List.take_append_drop 128 d

theorem chunkList_length (d : List ℕ) (h : d ≠ []) :
    (chunkList d).length = (d.length + 127) / 128 :=
  (chunkList_spec_aux d.length d le_rfl h).1

theorem chunkList_middle (d : List ℕ) (h : d ≠ []) :
    ∀ i, i + 1 < (chunkList d).length → ((chunkList d).getD i []).length = 128 :=
  (chunkList_spec_aux d.length d le_rfl h).2.1

theorem chunkList_last (d : List ℕ) (h : d ≠ []) :
    ((chunkList d).getD ((chunkList d).length - 1) []).length = (d.length - 1) % 128 + 1 :=
  (chunkList_spec_aux d.length d le_rfl h).2.2.1

theorem chunkList_flatten (d : List ℕ) (h : d ≠ []) :
    (chunkList d).flatten = d :=
  (chunkList_spec_aux d.length d le_rfl h).2.2.2

/-- The length of the packed print data is `⌊w·h/8⌋` by construction. -/
theorem getPrintData_length (c : ImgData) :
    (getPrintData c).length = c.width * c.height / 8 := by
  simp [getPrintData]

end Beta

namespace Beta

theorem land_255 (x : ℕ) : x &&& 255 = x % 256 := by
  have := Nat.and_pow_two_sub_one_eq_mod x 8
  norm_num at this
  omega

theorem shiftRight_8 (x : ℕ) : x >>> 8 = x / 256 := by
  rw [Nat.shiftRight_eq_div_pow]

end Beta

/-- C1: for a canvas whose pixel width `w` is a positive multiple of 8 and
whose packed payload has `h` rows (the canvas height), the first transfer of
`printCanvas` is exactly the 10 bytes
`[0x1B, 0x40, 0x1D, 0x76, 0x30, 0x00, (w/8)&0xFF, (w/8)>>8, h&0xFF, h>>8]`:
a constant 6-byte prefix followed by the two little-endian 16-bit fields
(the fields are 16-bit, so `w/8` and `h` are assumed to fit in 16 bits). -/
theorem beta_printCanvas_first_write_is_header (c : ImgData)
    (hw : 0 < c.width) (hmul : c.width % 8 = 0)
    (hw16 : c.width / 8 < 65536) (hh16 : c.height < 65536) :
    (Beta.printCanvasTrace c).head? = some (Beta.Ev.write
      [0x1B, 0x40, 0x1D, 0x76, 0x30, 0x00,
       (c.width / 8) &&& 0xFF, (c.width / 8) >>> 8,
       c.height &&& 0xFF, c.height >>> 8]) := by
  obtain ⟨m, hm⟩ : ∃ m, c.width = 8 * m := ⟨c.width / 8, by omega⟩
  have hmpos : 0 < m := by omega
  have hlen : (Beta.getPrintData c).length = m * c.height := by
    rw [Beta.getPrintData_length, hm, Nat.mul_assoc]
    exact Nat.mul_div_cancel_left _ (by norm_num)
  have hdiv : c.width / 8 = m := by omega
  have hrows : (Beta.getPrintData c).length / (c.width / 8) = c.height := by
    rw [hlen, hdiv, Nat.mul_div_cancel_left _ hmpos]
  simp only [Beta.printCanvasTrace, List.head?_cons, Option.some.injEq]
  rw [hrows, Beta.HEADER_DATA]
  rw [Beta.land_255, Beta.land_255, Beta.shiftRight_8, Beta.shiftRight_8]
  have h1 : c.width / 8 / 256 % 256 = c.width / 8 / 256 := by omega
  have h2 : c.height / 256 % 256 = c.height / 256 := by omega
  rw [h1, h2]

/-- Witness for C1 at the 96-dot-wide, 320-row canvas of the claim: the
header is exactly `1B 40 1D 76 30 00 0C 00 40 01`. -/
theorem beta_printCanvas_first_write_is_header_witness :
    (Beta.printCanvasTrace ⟨96, 320, []⟩).head? = some (Beta.Ev.write
      [0x1B, 0x40, 0x1D, 0x76, 0x30, 0x00, 0x0C, 0x00, 0x40, 0x01]) := by
  have h := beta_printCanvas_first_write_is_header ⟨96, 320, []⟩
    (by decide) (by decide) (by decide) (by decide)
  exact h.trans (by decide)

/-- C3: for a packed payload of length `L ≥ 1`, `printCanvas` performs,
strictly after the single header write and strictly before the single
terminator write of exactly `[0x1B, 0x64, 0x00]`, exactly `⌈L/128⌉` payload
chunk writes in order (their concatenation is the payload); every chunk holds
128 bytes except the last, which holds `((L-1) mod 128) + 1`; the loop stops
exactly when a slice is empty, and a 10 ms pacing delay follows each chunk
write (in particular one lies between any two consecutive chunk writes). -/
theorem beta_printCanvas_packetization (c : ImgData)
    (hL : 1 ≤ (Beta.getPrintData c).length) :
    Beta.printCanvasTrace c =
      Beta.Ev.write (Beta.HEADER_DATA (c.width / 8)
          ((Beta.getPrintData c).length / (c.width / 8)))
        :: (((Beta.chunkList (Beta.getPrintData c)).flatMap
              fun ch => [Beta.Ev.write ch, Beta.Ev.delay 10])
            ++ [Beta.Ev.write [0x1B, 0x64, 0x00]]) ∧
    (Beta.chunkList (Beta.getPrintData c)).length
        = ((Beta.getPrintData c).length + 127) / 128 ∧
    (∀ i, i + 1 < (Beta.chunkList (Beta.getPrintData c)).length →
        ((Beta.chunkList (Beta.getPrintData c)).getD i []).length = 128) ∧
    ((Beta.chunkList (Beta.getPrintData c)).getD
        ((Beta.chunkList (Beta.getPrintData c)).length - 1) []).length
        = ((Beta.getPrintData c).length - 1) % 128 + 1 ∧
    (Beta.chunkList (Beta.getPrintData c)).flatten = Beta.getPrintData c := by
  have hne : Beta.getPrintData c ≠ [] := by
    intro hnil
    rw [hnil] at hL
    simp at hL
  exact ⟨rfl, Beta.chunkList_length _ hne, Beta.chunkList_middle _ hne,
    Beta.chunkList_last _ hne, Beta.chunkList_flatten _ hne⟩

/-- Witness for C3 at an 8×1000 canvas, which packs to the claim's 1000-byte
payload: 8 chunk writes, the last one of 104 bytes. -/
theorem beta_printCanvas_packetization_witness :
    1 ≤ (Beta.getPrintData ⟨8, 1000, List.replicate 32000 255⟩).length ∧
    (Beta.chunkList (Beta.getPrintData ⟨8, 1000, List.replicate 32000 255⟩)).length = 8 ∧
    ((Beta.chunkList (Beta.getPrintData ⟨8, 1000, List.replicate 32000 255⟩)).getD
        ((Beta.chunkList (Beta.getPrintData ⟨8, 1000, List.replicate 32000 255⟩)).length - 1)
        []).length = 104 := by
  have hlen : (Beta.getPrintData ⟨8, 1000, List.replicate 32000 255⟩).length = 1000 := by
    rw [Beta.getPrintData_length]; norm_num
  have h := beta_printCanvas_packetization ⟨8, 1000, List.replicate 32000 255⟩
    (by rw [hlen]; norm_num)
  refine ⟨by rw [hlen]; norm_num, ?_, ?_⟩
  · rw [h.2.1, hlen]
  · rw [h.2.2.2.1, hlen]

/-- C5 (amended): `getPrintData` never rejects its input.  For every canvas —
in particular one whose width is not a multiple of 8 — it returns, without
raising any error, a byte array of exactly `⌊(w/8)·h⌋ = ⌊w·h/8⌋` bytes (the
fractional `Uint8Array` length is truncated and the trailing stores are
silently dropped). -/
theorem beta_getPrintData_never_rejects (c : ImgData) :
    (Beta.getPrintData c).length = c.width * c.height / 8 := by
  simp [Beta.getPrintData]

/-- Counterexample for C5 as stated: a 4-pixel-wide (not a multiple of 8)
canvas is not rejected; `getPrintData` returns the packed (truncated) byte
array `[0xFF]`. -/
theorem beta_getPrintData_width4_returns :
    4 % 8 ≠ 0 ∧
    Beta.getPrintData ⟨4, 2, List.replicate 32 255⟩ = [255] := by
  constructor
  · decide
  · decide

/-! ## The alternative printer layer (printer section of `src/unnamed/part_001`) -/

namespace Part001

/-- `getWhitePixel` of the part_001 printer: 0 (black) when the channel
average is below the threshold read from the `#threshold` form field
(`parseInt(...) || 128`); the DOM value is made an explicit parameter.  The
`#ditherAlgorithm` field is also read by the source but never used.  When the
flat index runs past the buffer the JavaScript average is `NaN` and the `<`
comparison is false, so the result is 1. -/
def getWhitePixel (threshold : ℚ) (c : ImgData) (x y : ℕ) : ℕ :=
  if (y * c.width + x) * 4 + 2 < c.data.length ∧
      ((c.data.getD ((y * c.width + x) * 4) 0 : ℚ)
        + (c.data.getD ((y * c.width + x) * 4 + 1) 0 : ℚ)
        + (c.data.getD ((y * c.width + x) * 4 + 2) 0 : ℚ)) / 3 < threshold
  then 0 else 1

/-- `getPrintData(canvas)` of the part_001 printer: identical loop structure
to the beta variant, but every bit is inverted (`1 - getWhitePixel`), as the
source comments require: "The printer expects the data to be inverted (1 for
black, 0 for white)". -/
def getPrintData (threshold : ℚ) (c : ImgData) : List ℕ :=
  (List.range (c.width * c.height / 8)).map fun off =>
    (1 - getWhitePixel threshold c (off % ((c.width + 7) / 8) * 8 + 0)
        (off / ((c.width + 7) / 8))) * 128 +
    (1 - getWhitePixel threshold c (off % ((c.width + 7) / 8) * 8 + 1)
        (off / ((c.width + 7) / 8))) * 64 +
    (1 - getWhitePixel threshold c (off % ((c.width + 7) / 8) * 8 + 2)
        (off / ((c.width + 7) / 8))) * 32 +
    (1 - getWhitePixel threshold c (off % ((c.width + 7) / 8) * 8 + 3)
        (off / ((c.width + 7) / 8))) * 16 +
    (1 - getWhitePixel threshold c (off % ((c.width + 7) / 8) * 8 + 4)
        (off / ((c.width + 7) / 8))) * 8 +
    (1 - getWhitePixel threshold c (off % ((c.width + 7) / 8) * 8 + 5)
        (off / ((c.width + 7) / 8))) * 4 +
    (1 - getWhitePixel threshold c (off % ((c.width + 7) / 8) * 8 + 6)
        (off / ((c.width + 7) / 8))) * 2 +
    (1 - getWhitePixel threshold c (off % ((c.width + 7) / 8) * 8 + 7)
        (off / ((c.width + 7) / 8)))

end Part001

/-- C2: on an 8×1 all-black canvas the beta `getPrintData` packs the byte
`0x00` — bit 0 for a black pixel, i.e. bit 1 means *white* — while the
part_001 variant (whose comments document that the printer expects 1 = black)
packs `0xFF`.  The claim's `bit = pixel==0 ? 1 : 0` convention holds for the
part_001 packer and is violated by the beta packer. -/
theorem pack_polarity_divergence :
    Beta.getPrintData ⟨8, 1, List.replicate 32 0⟩ = [0x00] ∧
    Part001.getPrintData 128 ⟨8, 1, List.replicate 32 0⟩ = [0xFF] := by
  constructor
  · decide
  · have hz : ∀ j, (List.replicate 32 (0:ℕ)).getD j 0 = 0 := by
      intro j
      rcases lt_or_ge j 32 with h | h
      · exact ListFacts.getD_replicate 32 j 0 h
      · exact ListFacts.getD_oob _ _ (by simpa using h)
    have hgw : ∀ x y, (y * 8 + x) * 4 + 2 < 32 →
        Part001.getWhitePixel 128 ⟨8, 1, List.replicate 32 0⟩ x y = 0 := by
      intro x y hxy
      simp only [Part001.getWhitePixel]
      rw [if_pos]
      refine ⟨by simpa using hxy, ?_⟩
      rw [hz, hz, hz]
      norm_num
    simp only [Part001.getPrintData]
    norm_num [List.range_succ]
    rw [hgw, hgw, hgw, hgw, hgw, hgw, hgw, hgw] <;> norm_num

/-! ## Unpacking (round-trip inverse of the bit packer) -/

/-- The black/white pattern of a canvas: the R channel of every pixel in
row-major order. -/
def canvasBW (c : ImgData) : List ℕ :=
  (List.range (c.width * c.height)).map fun p => c.data.getD (4 * p) 0

/-- MSB-first unpacking with the beta packer's own polarity: bit 1 ↦ white
(255), bit 0 ↦ black (0).  Pixel (x, y) reads bit `7 - (x mod 8)` of byte
`y·(w/8) + x/8`. -/
def unpackBits (w h : ℕ) (bytes : List ℕ) : List ℕ :=
  (List.range (w * h)).map fun p =>
    if bytes.getD (p / w * (w / 8) + p % w / 8) 0 / 2 ^ (7 - p % w % 8) % 2 = 1
    then 255 else 0

/-- MSB-first unpacking with the claim's inverted polarity: bit 1 ↦ black
(0), bit 0 ↦ white (255). -/
def unpackBitsInverted (w h : ℕ) (bytes : List ℕ) : List ℕ :=
  (List.range (w * h)).map fun p =>
    if bytes.getD (p / w * (w / 8) + p % w / 8) 0 / 2 ^ (7 - p % w % 8) % 2 = 1
    then 0 else 255

namespace ListFacts

theorem getD_range_map_nat (n : ℕ) (f : ℕ → ℕ) (j : ℕ) (h : j < n) :
    ((List.range n).map f).getD j 0 = f j := by
  rw [List.getD_eq_getElem?_getD, List.getElem?_map, List.getElem?_range h]
  rfl

end ListFacts

namespace Beta

theorem getWhitePixel_le_one (c : ImgData) (x y : ℕ) : getWhitePixel c x y ≤ 1 := by
  unfold getWhitePixel
  split <;> norm_num

/-- Extracting bit `7 - i` of an MSB-first weighted sum of eight bits. -/
theorem packBit8 (b0 b1 b2 b3 b4 b5 b6 b7 i : ℕ)
    (h0 : b0 ≤ 1) (h1 : b1 ≤ 1) (h2 : b2 ≤ 1) (h3 : b3 ≤ 1)
    (h4 : b4 ≤ 1) (h5 : b5 ≤ 1) (h6 : b6 ≤ 1) (h7 : b7 ≤ 1) (hi : i < 8) :
    (b0*128 + b1*64 + b2*32 + b3*16 + b4*8 + b5*4 + b6*2 + b7) / 2^(7-i) % 2 =
      [b0, b1, b2, b3, b4, b5, b6, b7].getD i 0 := by
  interval_cases i <;> norm_num <;> omega

theorem getWhitePixel_byte_window (c : ImgData) (q r y : ℕ) (hr : r < 8) :
    [getWhitePixel c (q*8 + 0) y, getWhitePixel c (q*8 + 1) y,
     getWhitePixel c (q*8 + 2) y, getWhitePixel c (q*8 + 3) y,
     getWhitePixel c (q*8 + 4) y, getWhitePixel c (q*8 + 5) y,
     getWhitePixel c (q*8 + 6) y, getWhitePixel c (q*8 + 7) y].getD r 0
      = getWhitePixel c (q*8 + r) y := by
  interval_cases r <;> rfl

end Beta

/-- Counterexample for C4 as stated: unpacking with the *inverted* polarity
the claim prescribes (bit 1 ↦ black) does not reproduce an all-white 8×1
canvas — it yields the complementary, all-black pattern. -/
theorem beta_roundtrip_inverted_fails :
    unpackBitsInverted 8 1 (Beta.getPrintData ⟨8, 1, List.replicate 32 255⟩)
      ≠ canvasBW ⟨8, 1, List.replicate 32 255⟩ := by
  decide

/-- C4 (amended): for a canvas whose width is a positive multiple of 8, whose
RGBA buffer is well formed, and whose pixels are all pure black `(0,0,0)` or
pure white `(255,255,255)`, `getPrintData` yields exactly `(w/8)·h` bytes and
unpacking them MSB-first with the packer's own polarity (bit 1 ↦ white 255,
bit 0 ↦ black 0) reproduces the canvas's black/white pattern bit for bit. -/
theorem beta_getPrintData_length_roundtrip (c : ImgData)
    (hw : 0 < c.width) (hmul : c.width % 8 = 0)
    (hdl : c.data.length = 4 * (c.width * c.height))
    (hpure : ∀ p, p < c.width * c.height →
      (c.data.getD (4*p) 0 = 0 ∧ c.data.getD (4*p+1) 0 = 0 ∧ c.data.getD (4*p+2) 0 = 0) ∨
      (c.data.getD (4*p) 0 = 255 ∧ c.data.getD (4*p+1) 0 = 255 ∧ c.data.getD (4*p+2) 0 = 255)) :
    (Beta.getPrintData c).length = c.width / 8 * c.height ∧
    unpackBits c.width c.height (Beta.getPrintData c) = canvasBW c := by
  obtain ⟨m, hm⟩ : ∃ m, c.width = 8 * m := ⟨c.width / 8, by omega⟩
  have hmpos : 0 < m := by omega
  have hdiv8 : c.width / 8 = m := by omega
  have hkmax : (c.width + 7) / 8 = m := by omega
  have hlen8 : c.width * c.height / 8 = m * c.height := by
    rw [hm, Nat.mul_assoc]
    exact Nat.mul_div_cancel_left _ (by norm_num)
  constructor
  · rw [Beta.getPrintData_length, hlen8, hdiv8]
  · unfold unpackBits canvasBW
    apply List.map_congr_left
    intro p hp
    rw [List.mem_range] at hp
    have hx : p % c.width < c.width := Nat.mod_lt _ (by omega)
    have hy : p / c.width < c.height := Nat.div_lt_of_lt_mul hp
    have hx8 : p % c.width / 8 < m := by omega
    have hbyteIdx : p / c.width * (c.width / 8) + p % c.width / 8 < m * c.height := by
      rw [hdiv8]
      calc p / c.width * m + p % c.width / 8 < p / c.width * m + m := by omega
        _ = (p / c.width + 1) * m := by ring
        _ ≤ c.height * m := Nat.mul_le_mul_right _ (by omega)
        _ = m * c.height := Nat.mul_comm _ _
    have hbyte : (Beta.getPrintData c).getD
          (p / c.width * (c.width / 8) + p % c.width / 8) 0
        = Beta.packByte c (p % c.width / 8 * 8) (p / c.width) := by
      unfold Beta.getPrintData
      rw [ListFacts.getD_range_map_nat _ _ _ (by rw [hlen8]; exact hbyteIdx)]
      rw [hkmax, hdiv8]
      congr 1
      · rw [Nat.mul_comm (p / c.width) m, Nat.mul_add_mod,
          Nat.mod_eq_of_lt hx8]
      · rw [Nat.mul_comm (p / c.width) m, Nat.mul_add_div hmpos,
          Nat.div_eq_of_lt hx8, Nat.add_zero]
    rw [hbyte]
    unfold Beta.packByte
    rw [Beta.packBit8 _ _ _ _ _ _ _ _ _
      (Beta.getWhitePixel_le_one _ _ _) (Beta.getWhitePixel_le_one _ _ _)
      (Beta.getWhitePixel_le_one _ _ _) (Beta.getWhitePixel_le_one _ _ _)
      (Beta.getWhitePixel_le_one _ _ _) (Beta.getWhitePixel_le_one _ _ _)
      (Beta.getWhitePixel_le_one _ _ _) (Beta.getWhitePixel_le_one _ _ _)
      (Nat.mod_lt _ (by norm_num))]
    rw [Beta.getWhitePixel_byte_window c (p % c.width / 8) (p % c.width % 8)
      (p / c.width) (Nat.mod_lt _ (by norm_num))]
    have hq8 : p % c.width / 8 * 8 + p % c.width % 8 = p % c.width := by omega
    rw [hq8]
    have hpx : p / c.width * c.width + p % c.width = p := by
      rw [Nat.mul_comm]
      exact Nat.div_add_mod p c.width
    rcases hpure p hp with ⟨h0, h1, h2⟩ | ⟨h0, h1, h2⟩
    · have hgw0 : Beta.getWhitePixel c (p % c.width) (p / c.width) = 0 := by
        unfold Beta.getWhitePixel
        rw [if_neg]
        intro hc
        rw [hpx] at hc
        have h4p : p * 4 = 4 * p := Nat.mul_comm _ _
        rw [h4p, h0, h1, h2] at hc
        omega
      rw [hgw0, h0]
      norm_num
    · have hgw1 : Beta.getWhitePixel c (p % c.width) (p / c.width) = 1 := by
        unfold Beta.getWhitePixel
        rw [if_pos]
        rw [hpx]
        have h4p : p * 4 = 4 * p := Nat.mul_comm _ _
        rw [h4p, h0, h1, h2, hdl]
        constructor
        · omega
        · norm_num
      rw [hgw1, h0]
      norm_num

/-- Witness for C4 (amended) at a concrete 8×2 canvas whose first row is
black-white alternating and whose second row is all black. -/
theorem beta_getPrintData_length_roundtrip_witness :
    (Beta.getPrintData ⟨8, 2,
        [0,0,0,255, 255,255,255,255, 0,0,0,255, 255,255,255,255,
         0,0,0,255, 255,255,255,255, 0,0,0,255, 255,255,255,255,
         0,0,0,255, 0,0,0,255, 0,0,0,255, 0,0,0,255,
         0,0,0,255, 0,0,0,255, 0,0,0,255, 0,0,0,255]⟩).length = 2 ∧
    unpackBits 8 2 (Beta.getPrintData ⟨8, 2,
        [0,0,0,255, 255,255,255,255, 0,0,0,255, 255,255,255,255,
         0,0,0,255, 255,255,255,255, 0,0,0,255, 255,255,255,255,
         0,0,0,255, 0,0,0,255, 0,0,0,255, 0,0,0,255,
         0,0,0,255, 0,0,0,255, 0,0,0,255, 0,0,0,255]⟩)
      = canvasBW ⟨8, 2,
        [0,0,0,255, 255,255,255,255, 0,0,0,255, 255,255,255,255,
         0,0,0,255, 255,255,255,255, 0,0,0,255, 255,255,255,255,
         0,0,0,255, 0,0,0,255, 0,0,0,255, 0,0,0,255,
         0,0,0,255, 0,0,0,255, 0,0,0,255, 0,0,0,255]⟩ := by
  have h := beta_getPrintData_length_roundtrip ⟨8, 2,
        [0,0,0,255, 255,255,255,255, 0,0,0,255, 255,255,255,255,
         0,0,0,255, 255,255,255,255, 0,0,0,255, 255,255,255,255,
         0,0,0,255, 0,0,0,255, 0,0,0,255, 0,0,0,255,
         0,0,0,255, 0,0,0,255, 0,0,0,255, 0,0,0,255]⟩
    (by decide) (by decide) (by decide) (by decide)
  exact ⟨h.1.trans (by decide), h.2⟩

/-! ## The image pipeline (`src/index.js`) -/

namespace App

/-- `Math.max(0, Math.min(255, x))`. -/
def clamp255 (x : ℚ) : ℚ := max 0 (min 255 x)

/-- One entry of the gray field built at the top of `ditherImageData`:
brightness/contrast adjustment per channel, clamped, then the luminance;
when `noise > 0` a `(Math.random() - 0.5) * noise*2.55` perturbation is added
and clamped.  The per-pixel `Math.random()` draws are the explicit stream
`nr`. -/
def grayAt (d : List ℕ) (brightness contrast noise : ℚ) (nr : ℕ → ℚ) (i : ℕ) : ℚ :=
  let brightnessAdjust := brightness * 2.55
  let contrastFactor := (259 * (contrast + 255)) / (255 * (259 - contrast))
  let noiseAmount := noise * 2.55
  let r : ℚ := d.getD (i * 4) 0
  let g : ℚ := d.getD (i * 4 + 1) 0
  let b : ℚ := d.getD (i * 4 + 2) 0
  let adjustedR := clamp255 (contrastFactor * (r - 128) + 128 + brightnessAdjust)
  let adjustedG := clamp255 (contrastFactor * (g - 128) + 128 + brightnessAdjust)
  let adjustedB := clamp255 (contrastFactor * (b - 128) + 128 + brightnessAdjust)
  let luminance := 0.299 * adjustedR + 0.587 * adjustedG + 0.114 * adjustedB
  if 0 < noise then clamp255 (luminance + (nr i - 0.5) * noiseAmount) else luminance

/-- The whole gray field (`Float32Array(width * height)`). -/
def grayList (img : ImgData) (brightness contrast noise : ℚ) (nr : ℕ → ℚ) : List ℚ :=
  (List.range (img.width * img.height)).map (grayAt img.data brightness contrast noise nr)

/-- `setBWPixel(idx, val)`: writes `val` to R, G, B and 255 to A of pixel
`idx`; out-of-range stores are dropped, as on a `Uint8ClampedArray`. -/
def setBWPixel (d : List ℕ) (idx v : ℕ) : List ℕ :=
  (((d.set (idx * 4) v).set (idx * 4 + 1) v).set (idx * 4 + 2) v).set (idx * 4 + 3) 255

/-- The per-pixel write loop shared by the threshold / ordered / blue-noise
branches: pixels 0, 1, …, n-1 in row-major order (the nested y/x loops of the
source visit `idx = y*width + x` in exactly this order). -/
def bwPass (d0 : List ℕ) (n : ℕ) (f : ℕ → ℕ) : List ℕ :=
  (List.range n).foldl (fun d i => setBWPixel d i (f i)) d0

/-- Pixel value of the `threshold` branch: edge-aware threshold reduction 30. -/
def thresholdValAt (gray : List ℚ) (edgeMap : Option (List ℚ)) (threshold : ℚ) (i : ℕ) : ℕ :=
  let adjustedThreshold :=
    match edgeMap with
    | some e => threshold - e.getD i 0 / 255 * 30
    | none => threshold
  if gray.getD i 0 < adjustedThreshold then 0 else 255

/-- The 2×2 Bayer matrix of the `ordered2` branch. -/
def orderedMatrix2 : List (List ℕ) := [[0, 2], [3, 1]]

/-- The 4×4 Bayer matrix of the `ordered4` branch (also the fallback matrix
of the final `else` of the matrix selection). -/
def orderedMatrix4 : List (List ℕ) :=
  [[0, 8, 2, 10], [12, 4, 14, 6], [3, 11, 1, 9], [15, 7, 13, 5]]

/-- The 8×8 Bayer matrix of the `ordered8` branch. -/
def orderedMatrix8 : List (List ℕ) :=
  [[0, 32, 8, 40, 2, 34, 10, 42],
   [48, 16, 56, 24, 50, 18, 58, 26],
   [12, 44, 4, 36, 14, 46, 6, 38],
   [60, 28, 52, 20, 62, 30, 54, 22],
   [3, 35, 11, 43, 1, 33, 9, 41],
   [51, 19, 59, 27, 49, 17, 57, 25],
   [15, 47, 7, 39, 13, 45, 5, 37],
   [63, 31, 55, 23, 61, 29, 53, 21]]

/-- Pixel value of the ordered-dither branch: `(matrix[y%n][x%n] + 0.5) *
255/n²`, reduced by `edgeStrength * 40` in edge-aware mode. -/
def orderedValAt (gray : List ℚ) (edgeMap : Option (List ℚ)) (matrix : List (List ℕ))
    (w i : ℕ) : ℕ :=
  let n := matrix.length
  let scale : ℚ := 255 / (n * n)
  let x := i % w
  let y := i / w
  let base : ℚ := (((matrix.getD (y % n) []).getD (x % n) 0 : ℚ) + 0.5) * scale
  let thresholdVal :=
    match edgeMap with
    | some e => base - e.getD i 0 / 255 * 40
    | none => base
  if gray.getD i 0 < thresholdVal then 0 else 255

/-- Pixel value of the `blue_noise` branch: the 64×64 map is tiled by
`(y mod 64, x mod 64)`; edge-aware reduction 40. -/
def blueValAt (gray : List ℚ) (edgeMap : Option (List ℚ)) (noiseMap : List ℕ)
    (w i : ℕ) : ℕ :=
  let x := i % w
  let y := i / w
  let noiseThreshold : ℚ := noiseMap.getD ((y % 64) * 64 + (x % 64)) 0
  let adjustedThreshold :=
    match edgeMap with
    | some e => noiseThreshold - e.getD i 0 / 255 * 40
    | none => noiseThreshold
  if gray.getD i 0 < adjustedThreshold then 0 else 255

/-! ### The blue-noise map generator (`generateBlueNoiseMap`)

`Math.sqrt` appears in the source only inside `dist = Math.sqrt(dx² + dy²)`,
and `dist` is used only in order comparisons (`Math.min`, `minDist >
bestDist`) against other such square roots or the sentinels `-1` and
`Infinity`.  Since `Real.sqrt` is strictly monotone on nonnegative reals, the
embedding tracks the *squared* distances together with the two sentinels
(`DistVal`), which keeps every comparison of the source exactly and stays
computable. -/

/-- Value of `minDist` / `bestDist` in the best-candidate loop: the initial
`-1`, a finite distance (stored squared), or `Infinity`. -/
inductive DistVal where
  | negOne
  | fin (d2 : ℚ)
  | inf
deriving DecidableEq, Repr

/-- `a > b` for two `DistVal`s, with finite values compared via their squares. -/
def gtD : DistVal → DistVal → Bool
  | .inf, .inf => false
  | .inf, _ => true
  | .fin _, .negOne => true
  | .fin a, .fin b => decide (b < a)
  | .fin _, .inf => false
  | .negOne, _ => false

/-- `Math.min(minDist, dist)` with `dist` stored squared. -/
def minD : DistVal → ℚ → DistVal
  | .inf, d2 => .fin d2
  | .fin a, d2 => .fin (min a d2)
  | .negOne, d2 => .fin d2

/-- Squared Euclidean distance between grid cells `a` and `b` of a
`size`×`size` torus-free grid (`x = cell % size`, `y = ⌊cell / size⌋`). -/
def sqDist (size a b : ℕ) : ℚ :=
  (((a % size : ℕ) : ℚ) - ((b % size : ℕ) : ℚ)) ^ 2
    + (((a / size : ℕ) : ℚ) - ((b / size : ℕ) : ℚ)) ^ 2

/-- The inner `j` loop: minimum distance from `cand` to any already-used
cell, starting from `Infinity`. -/
def minDistScan (used : List Bool) (size cand : ℕ) : DistVal :=
  used.enum.foldl
    (fun acc ju => if ju.2 then minD acc (sqDist size cand ju.1) else acc)
    DistVal.inf

/-- One attempt of the candidate loop: draw a candidate
(`Math.floor(Math.random() * size*size)`), skip it if used, otherwise compare
its minimum distance against the best so far. -/
def attemptStep (rand : ℕ → ℚ) (used : List Bool) (size : ℕ)
    (st : DistVal × ℕ) (a : ℕ) : DistVal × ℕ :=
  let candidate := (⌊rand a * ((size : ℚ) * size)⌋).toNat
  if used.getD candidate false then st
  else
    let minDist := minDistScan used size candidate
    if gtD minDist st.1 then (minDist, candidate) else st

/-- Iteration `i` of `generateBlueNoiseMap`: up to `min(100, size²-i)`
attempts starting from `bestDist = -1`, `bestIdx = 0`; the chosen cell is
marked used and receives the rank value `⌊i/size² · 256⌋`. -/
def blueNoiseIter (rng : ℕ → ℕ → ℚ) (size : ℕ) (st : List Bool × List ℕ) (i : ℕ) :
    List Bool × List ℕ :=
  let best := (List.range (min 100 (size * size - i))).foldl
    (attemptStep (rng i) st.1 size) (DistVal.negOne, 0)
  (st.1.set best.2 true,
   st.2.set best.2 (Int.toNat ⌊(i : ℚ) / ((size : ℚ) * size) * 256⌋))

/-- `generateBlueNoiseMap(size)`, with the `Math.random()` draws passed
explicitly as `rng i a` (iteration `i`, attempt `a` — the order in which the
source consumes the global stream). -/
def generateBlueNoiseMap (rng : ℕ → ℕ → ℚ) (size : ℕ) : List ℕ :=
  ((List.range (size * size)).foldl (blueNoiseIter rng size)
    (List.replicate (size * size) false, List.replicate (size * size) 0)).2

/-! ### Error diffusion -/

/-- Floyd–Steinberg kernel entries `(x, y, weight)`. -/
def floydKernel : List (ℤ × ℕ × ℚ) :=
  [(1, 0, 7/16), (-1, 1, 3/16), (0, 1, 5/16), (1, 1, 1/16)]

def atkinsonKernel : List (ℤ × ℕ × ℚ) :=
  [(1, 0, 1/8), (2, 0, 1/8), (-1, 1, 1/8), (0, 1, 1/8), (1, 1, 1/8), (0, 2, 1/8)]

def stuckiKernel : List (ℤ × ℕ × ℚ) :=
  [(1, 0, 8/42), (2, 0, 4/42), (-2, 1, 2/42), (-1, 1, 4/42), (0, 1, 8/42),
   (1, 1, 4/42), (2, 1, 2/42), (-2, 2, 1/42), (-1, 2, 2/42), (0, 2, 4/42),
   (1, 2, 2/42), (2, 2, 1/42)]

def jarvisKernel : List (ℤ × ℕ × ℚ) :=
  [(1, 0, 7/48), (2, 0, 5/48), (-2, 1, 3/48), (-1, 1, 5/48), (0, 1, 7/48),
   (1, 1, 5/48), (2, 1, 3/48), (-2, 2, 1/48), (-1, 2, 3/48), (0, 2, 5/48),
   (1, 2, 3/48), (2, 2, 1/48)]

def sierraKernel : List (ℤ × ℕ × ℚ) :=
  [(1, 0, 5/32), (2, 0, 3/32), (-2, 1, 2/32), (-1, 1, 4/32), (0, 1, 5/32),
   (1, 1, 4/32), (2, 1, 2/32), (-1, 2, 2/32), (0, 2, 3/32), (1, 2, 2/32)]

def burkesKernel : List (ℤ × ℕ × ℚ) :=
  [(1, 0, 8/32), (2, 0, 4/32), (-2, 1, 2/32), (-1, 1, 4/32), (0, 1, 8/32),
   (1, 1, 4/32), (2, 1, 2/32)]

/-- The own properties of the `errorKernels` object literal.  This is only
the own-property part of the lookup `errorKernels[algorithm]`; the full
lookup, which also consults the object's prototype chain, is
`errorKernelsJS` below. -/
def errorKernels (s : String) : Option (List (ℤ × ℕ × ℚ)) :=
  if s = "floyd" then some floydKernel
  else if s = "atkinson" then some atkinsonKernel
  else if s = "stucki" then some stuckiKernel
  else if s = "jarvis" then some jarvisKernel
  else if s = "sierra" then some sierraKernel
  else if s = "burkes" then some burkesKernel
  else none

/-- One pixel of the error-diffusion loop: quantize against the edge-adjusted
threshold (reduction 20), store the new value into the gray field and the
RGBA buffer, and diffuse the error to the in-bounds kernel neighbours, with
the kernel x-offsets multiplied by the scan direction. -/
def edStep (w h : ℕ) (threshold : ℚ) (edgeMap : Option (List ℚ))
    (kernel : List (ℤ × ℕ × ℚ)) (direction : ℤ) (y : ℕ)
    (st : List ℚ × List ℕ) (x : ℕ) : List ℚ × List ℕ :=
  let idx := y * w + x
  let oldVal := st.1.getD idx 0
  let adjustedThreshold :=
    match edgeMap with
    | some e => threshold - e.getD idx 0 / 255 * 20
    | none => threshold
  let newVal : ℚ := if oldVal < adjustedThreshold then 0 else 255
  let err := oldVal - newVal
  let gray1 := st.1.set idx newVal
  let data1 := setBWPixel st.2 idx (if oldVal < adjustedThreshold then 0 else 255)
  let gray2 := kernel.foldl
    (fun g k =>
      let nx : ℤ := (x : ℤ) + k.1 * direction
      let ny : ℤ := (y : ℤ) + (k.2.1 : ℤ)
      if 0 ≤ nx ∧ nx < (w : ℤ) ∧ 0 ≤ ny ∧ ny < (h : ℤ) then
        let nIdx := ny.toNat * w + nx.toNat
        g.set nIdx (g.getD nIdx 0 + err * k.2.2)
      else g)
    gray1
  (gray2, data1)

/-- The error-diffusion main loop: rows top to bottom; odd rows are scanned
right-to-left when serpentine scanning is on. -/
def errorDiffuse (img : ImgData) (gray0 : List ℚ) (kernel : List (ℤ × ℕ × ℚ))
    (threshold : ℚ) (edgeMap : Option (List ℚ)) (serpentine : Bool) : ImgData :=
  let w := img.width
  let h := img.height
  let final := (List.range h).foldl
    (fun st y =>
      let direction : ℤ := if serpentine ∧ y % 2 = 1 then -1 else 1
      let xs := if serpentine ∧ y % 2 = 1 then (List.range w).reverse else List.range w
      xs.foldl (edStep w h threshold edgeMap kernel direction y) st)
    (gray0, img.data)
  ⟨w, h, final.2⟩

/-- `String.startsWith`, in a form the kernel can evaluate: the byte-level
`substrEq` of the standard library is replaced by the character-list prefix
test, which agrees with it on all strings. -/
def strStartsWith (s pre : String) : Bool := pre.data.isPrefixOf s.data

/-- `ditherImageData(imgData, algorithm, threshold, brightness, contrast,
noise, serpentine, edgeMap)` of `src/index.js`, with the `Math.random()`
streams explicit: `nr` feeds the per-pixel noise perturbation, `mapRng` feeds
the `generateBlueNoiseMap(64)` call that the `blue_noise` branch performs on
every invocation.  The branch order mirrors the source: `threshold`, then
`blue_noise`, then any name starting with `"ordered"`, then the error-kernel
lookup with `|| errorKernels.floyd` fallback.  This function models the
executions that return an image; the lookup can also hit a property
inherited from `Object.prototype` and then throw — `ditherImageDataJS`
below includes that failing path. -/
def ditherImageData (img : ImgData) (algorithm : String)
    (threshold brightness contrast noise : ℚ) (serpentine : Bool)
    (edgeMap : Option (List ℚ)) (nr : ℕ → ℚ) (mapRng : ℕ → ℕ → ℚ) : ImgData :=
  let gray := grayList img brightness contrast noise nr
  if algorithm = "threshold" then
    ⟨img.width, img.height,
     bwPass img.data (img.width * img.height) (thresholdValAt gray edgeMap threshold)⟩
  else if algorithm = "blue_noise" then
    let noiseMap := generateBlueNoiseMap mapRng 64
    ⟨img.width, img.height,
     bwPass img.data (img.width * img.height) (blueValAt gray edgeMap noiseMap img.width)⟩
  else if strStartsWith algorithm "ordered" then
    let matrix :=
      if algorithm = "ordered2" then orderedMatrix2
      else if algorithm = "ordered4" then orderedMatrix4
      else if algorithm = "ordered8" then orderedMatrix8
      else orderedMatrix4
    ⟨img.width, img.height,
     bwPass img.data (img.width * img.height) (orderedValAt gray edgeMap matrix img.width)⟩
  else
    errorDiffuse img gray ((errorKernels algorithm).getD floydKernel)
      threshold edgeMap serpentine

/-- The algorithm names the specification recognizes (§4.3 of the spec). -/
def recognizedAlgorithms : List String :=
  ["threshold", "ordered2", "ordered4", "ordered8", "blue_noise",
   "floyd", "atkinson", "stucki", "jarvis", "sierra", "burkes", "two_phase"]

/-- The own property names of `Object.prototype`, which the `errorKernels`
object literal inherits.  For each of these names `errorKernels[name]`
evaluates to a truthy value — a built-in function, or, for `"__proto__"`,
the `Object.prototype` object itself — rather than `undefined`, so the
`|| errorKernels.floyd` fallback is skipped. -/
def objectPrototypeProps : List String :=
  ["constructor", "hasOwnProperty", "isPrototypeOf", "propertyIsEnumerable",
   "toLocaleString", "toString", "valueOf", "__defineGetter__",
   "__defineSetter__", "__lookupGetter__", "__lookupSetter__", "__proto__"]

/-- Result of the property lookup `errorKernels[algorithm]`: an own property
(one of the six kernel arrays), a truthy non-iterable value inherited from
`Object.prototype`, or `undefined`. -/
inductive JsKernelLookup where
  | own (k : List (ℤ × ℕ × ℚ))
  | inherited
  | undef
deriving DecidableEq, Repr

/-- `errorKernels[algorithm]`, prototype chain included. -/
def errorKernelsJS (s : String) : JsKernelLookup :=
  match errorKernels s with
  | some k => JsKernelLookup.own k
  | none =>
    if s ∈ objectPrototypeProps then JsKernelLookup.inherited
    else JsKernelLookup.undef

/-- `ditherImageData` with the failing executions included.  When the kernel
lookup `errorKernels[algorithm] || errorKernels.floyd` yields a truthy value
inherited from `Object.prototype`, the per-pixel
`for (const { x: dx, y: dy, weight } of kernel)` throws a `TypeError`
at the first processed pixel, because the inherited value is not iterable;
when the image has no pixels that loop body never runs, the kernel value is
never consulted (so the representative `floydKernel` below changes nothing),
and the call returns normally. -/
def ditherImageDataJS (img : ImgData) (algorithm : String)
    (threshold brightness contrast noise : ℚ) (serpentine : Bool)
    (edgeMap : Option (List ℚ)) (nr : ℕ → ℚ) (mapRng : ℕ → ℕ → ℚ) :
    Except Unit ImgData :=
  let gray := grayList img brightness contrast noise nr
  if algorithm = "threshold" then
    Except.ok ⟨img.width, img.height,
      bwPass img.data (img.width * img.height) (thresholdValAt gray edgeMap threshold)⟩
  else if algorithm = "blue_noise" then
    let noiseMap := generateBlueNoiseMap mapRng 64
    Except.ok ⟨img.width, img.height,
      bwPass img.data (img.width * img.height) (blueValAt gray edgeMap noiseMap img.width)⟩
  else if strStartsWith algorithm "ordered" then
    let matrix :=
      if algorithm = "ordered2" then orderedMatrix2
      else if algorithm = "ordered4" then orderedMatrix4
      else if algorithm = "ordered8" then orderedMatrix8
      else orderedMatrix4
    Except.ok ⟨img.width, img.height,
      bwPass img.data (img.width * img.height) (orderedValAt gray edgeMap matrix img.width)⟩
  else
    match errorKernelsJS algorithm with
    | JsKernelLookup.own k =>
      Except.ok (errorDiffuse img gray k threshold edgeMap serpentine)
    | JsKernelLookup.undef =>
      Except.ok (errorDiffuse img gray floydKernel threshold edgeMap serpentine)
    | JsKernelLookup.inherited =>
      if img.width * img.height = 0 then
        Except.ok (errorDiffuse img gray floydKernel threshold edgeMap serpentine)
      else Except.error ()

end App

namespace App

theorem setBWPixel_length (d : List ℕ) (i v : ℕ) :
    (setBWPixel d i v).length = d.length := by
  simp [setBWPixel]

theorem setBWPixel_getD (d : List ℕ) (i v j : ℕ) :
    (setBWPixel d i v).getD j 0 =
      if (j = i*4 ∨ j = i*4+1 ∨ j = i*4+2) ∧ j < d.length then v
      else if j = i*4+3 ∧ j < d.length then 255
      else d.getD j 0 := by
  by_cases hjl : j < d.length
  · by_cases h3 : j = i*4+3
    · subst h3
      rw [setBWPixel, ListFacts.getD_set_self _ _ _ (by simpa using hjl)]
      rw [if_neg (by omega), if_pos ⟨rfl, hjl⟩]
    · rw [setBWPixel, ListFacts.getD_set_other _ _ _ _ (by omega)]
      by_cases h2 : j = i*4+2
      · subst h2
        rw [ListFacts.getD_set_self _ _ _ (by simpa using hjl)]
        rw [if_pos ⟨by omega, hjl⟩]
      · rw [ListFacts.getD_set_other _ _ _ _ (by omega)]
        by_cases h1 : j = i*4+1
        · subst h1
          rw [ListFacts.getD_set_self _ _ _ (by simpa using hjl)]
          rw [if_pos ⟨by omega, hjl⟩]
        · rw [ListFacts.getD_set_other _ _ _ _ (by omega)]
          by_cases h0 : j = i*4
          · subst h0
            rw [ListFacts.getD_set_self _ _ _ hjl]
            rw [if_pos ⟨by omega, hjl⟩]
          · rw [ListFacts.getD_set_other _ _ _ _ (by omega)]
            rw [if_neg (by omega), if_neg (by omega)]
  · have hl : (setBWPixel d i v).length = d.length := setBWPixel_length d i v
    rw [ListFacts.getD_oob _ _ (by omega), if_neg (fun hc => hjl hc.2),
      if_neg (fun hc => hjl hc.2), ListFacts.getD_oob _ _ (by omega)]

theorem bwPass_zero (d0 : List ℕ) (f : ℕ → ℕ) : bwPass d0 0 f = d0 := rfl

theorem bwPass_succ (d0 : List ℕ) (n : ℕ) (f : ℕ → ℕ) :
    bwPass d0 (n+1) f = setBWPixel (bwPass d0 n f) n (f n) := by
  unfold bwPass
  rw [List.range_succ, List.foldl_append]
  simp

theorem bwPass_length (d0 : List ℕ) (n : ℕ) (f : ℕ → ℕ) :
    (bwPass d0 n f).length = d0.length := by
  induction n with
  | zero => rfl
  | succ n ih => rw [bwPass_succ, setBWPixel_length, ih]

theorem bwPass_getD (d0 : List ℕ) (n : ℕ) (f : ℕ → ℕ) (j : ℕ) :
    (bwPass d0 n f).getD j 0 =
      if j < 4 * n ∧ j < d0.length then (if j % 4 = 3 then 255 else f (j / 4))
      else d0.getD j 0 := by
  induction n with
  | zero => simp [bwPass_zero]
  | succ n ih =>
    rw [bwPass_succ, setBWPixel_getD, bwPass_length, ih]
    split_ifs <;> (try omega) <;>
      (have h4 : j / 4 = n := by omega
       rw [h4])

theorem clamp255_nonneg (x : ℚ) : 0 ≤ clamp255 x := le_max_left _ _

theorem clamp255_le (x : ℚ) : clamp255 x ≤ 255 :=
  max_le (by norm_num) (min_le_left _ _)

theorem grayAt_nonneg (d : List ℕ) (b c n : ℚ) (nr : ℕ → ℚ) (i : ℕ) :
    0 ≤ grayAt d b c n nr i := by
  unfold grayAt
  split
  · exact clamp255_nonneg _
  · have h1 := clamp255_nonneg (259 * (c + 255) / (255 * (259 - c)) * ((d.getD (i*4) 0 : ℚ) - 128) + 128 + b * 2.55)
    have h2 := clamp255_nonneg (259 * (c + 255) / (255 * (259 - c)) * ((d.getD (i*4+1) 0 : ℚ) - 128) + 128 + b * 2.55)
    have h3 := clamp255_nonneg (259 * (c + 255) / (255 * (259 - c)) * ((d.getD (i*4+2) 0 : ℚ) - 128) + 128 + b * 2.55)
    nlinarith

theorem grayAt_le_255 (d : List ℕ) (b c n : ℚ) (nr : ℕ → ℚ) (i : ℕ) :
    grayAt d b c n nr i ≤ 255 := by
  unfold grayAt
  split
  · exact clamp255_le _
  · have h1 := clamp255_le (259 * (c + 255) / (255 * (259 - c)) * ((d.getD (i*4) 0 : ℚ) - 128) + 128 + b * 2.55)
    have h2 := clamp255_le (259 * (c + 255) / (255 * (259 - c)) * ((d.getD (i*4+1) 0 : ℚ) - 128) + 128 + b * 2.55)
    have h3 := clamp255_le (259 * (c + 255) / (255 * (259 - c)) * ((d.getD (i*4+2) 0 : ℚ) - 128) + 128 + b * 2.55)
    nlinarith

end App

namespace ListFacts

theorem getD_range_map_rat (n : ℕ) (f : ℕ → ℚ) (j : ℕ) (h : j < n) :
    ((List.range n).map f).getD j 0 = f j := by
  rw [List.getD_eq_getElem?_getD, List.getElem?_map, List.getElem?_range h]
  rfl

end ListFacts

namespace App

/-- With brightness = contrast = noise = 0 the gray value is the plain
luminance of the clamped channels (the contrast factor is exactly 1). -/
theorem grayAt_zero_params (d : List ℕ) (nr : ℕ → ℚ) (i : ℕ) :
    grayAt d 0 0 0 nr i =
      0.299 * clamp255 (d.getD (i*4) 0)
      + 0.587 * clamp255 (d.getD (i*4+1) 0)
      + 0.114 * clamp255 (d.getD (i*4+2) 0) := by
  unfold grayAt
  rw [if_neg (lt_irrefl 0)]
  have harg : ∀ x : ℚ, 259 * (0 + 255) / (255 * (259 - 0)) * (x - 128) + 128 + 0 * 2.55 = x := by
    intro x
    norm_num
  rw [harg, harg, harg]

/-- `clamp255` fixes 0 and 255 and the luminance of an equal triple is the
value itself (`0.299 + 0.587 + 0.114 = 1`). -/
theorem bw_gray (v : ℕ) (hv : v = 0 ∨ v = 255) :
    0.299 * clamp255 ((v : ℚ)) + 0.587 * clamp255 ((v : ℚ))
      + 0.114 * clamp255 ((v : ℚ)) = (v : ℚ) := by
  rcases hv with hv | hv <;> subst hv <;>
    simp [clamp255, min_def, max_def] <;> norm_num

theorem thresholdValAt_cases (g : List ℚ) (e : Option (List ℚ)) (t : ℚ) (i : ℕ) :
    thresholdValAt g e t i = 0 ∨ thresholdValAt g e t i = 255 := by
  simp only [thresholdValAt]
  split
  · left; rfl
  · right; rfl

/-- The `threshold` branch of `ditherImageData`, exposed. -/
theorem dither_threshold_eq (img : ImgData) (t b c n : ℚ) (serp : Bool)
    (edge : Option (List ℚ)) (nr : ℕ → ℚ) (mr : ℕ → ℕ → ℚ) :
    ditherImageData img "threshold" t b c n serp edge nr mr
      = ⟨img.width, img.height,
         bwPass img.data (img.width * img.height)
           (thresholdValAt (grayList img b c n nr) edge t)⟩ := rfl

end App

/-- C7: `threshold` dithering is idempotent.  For every image and every
threshold value, applying `ditherImageData` with algorithm `"threshold"`,
default adjustments (brightness = contrast = noise = 0) and no edge map to
its own output yields the identical two-level image: pixels already 0 or 255
stay fixed under the same threshold. -/
theorem dither_threshold_idempotent (img : ImgData) (t : ℚ) (serp : Bool)
    (nr : ℕ → ℚ) (mr : ℕ → ℕ → ℚ)
    (hdl : img.data.length = 4 * (img.width * img.height)) :
    App.ditherImageData (App.ditherImageData img "threshold" t 0 0 0 serp none nr mr)
        "threshold" t 0 0 0 serp none nr mr
      = App.ditherImageData img "threshold" t 0 0 0 serp none nr mr := by
  simp only [App.dither_threshold_eq]
  congr 1
  set N := img.width * img.height with hND
  set g1 := App.grayList img 0 0 0 nr with hg1
  set f1 := App.thresholdValAt g1 none t with hf1
  set D1 := App.bwPass img.data N f1 with hD1
  have hD1len : D1.length = img.data.length := App.bwPass_length _ _ _
  -- channel values of the intermediate image at pixel p
  have hchan : ∀ p, p < N → ∀ r, r < 3 →
      D1.getD (p * 4 + r) 0 = f1 p := by
    intro p hp r hr
    rw [hD1, App.bwPass_getD]
    rw [if_pos ⟨by omega, by omega⟩, if_neg (by omega)]
    have : (p * 4 + r) / 4 = p := by omega
    rw [this]
  -- the gray field of the second pass at pixel p is exactly the two-level
  -- value written by the first pass
  have hgray2 : ∀ p, p < N →
      App.grayAt D1 0 0 0 nr p = (f1 p : ℚ) := by
    intro p hp
    rw [App.grayAt_zero_params]
    have h0 := hchan p hp 0 (by norm_num)
    have h1 := hchan p hp 1 (by norm_num)
    have h2 := hchan p hp 2 (by norm_num)
    rw [show p * 4 + 0 = p * 4 by omega] at h0
    rw [h0, h1, h2]
    exact App.bw_gray (f1 p) (App.thresholdValAt_cases _ _ _ _)
  -- pointwise: the second pass writes the same value as the first
  have hval : ∀ p, p < N →
      App.thresholdValAt (App.grayList ⟨img.width, img.height, D1⟩ 0 0 0 nr) none t p
        = f1 p := by
    intro p hp
    unfold App.thresholdValAt App.grayList
    simp only
    rw [ListFacts.getD_range_map_rat _ _ _ (by simpa using hp)]
    rw [hgray2 p hp]
    have hcases := App.thresholdValAt_cases g1 none t p
    rw [hf1]
    unfold App.thresholdValAt
    simp only
    have hnn : 0 ≤ g1.getD p 0 := by
      rw [hg1]
      unfold App.grayList
      rcases lt_or_ge p (img.width * img.height) with hlt | hge
      · rw [ListFacts.getD_range_map_rat _ _ _ hlt]
        exact App.grayAt_nonneg _ _ _ _ _ _
      · rw [List.getD_eq_getElem?_getD, List.getElem?_eq_none (by simpa using hge)]
        norm_num
    have hle : g1.getD p 0 ≤ 255 := by
      rw [hg1]
      unfold App.grayList
      rcases lt_or_ge p (img.width * img.height) with hlt | hge
      · rw [ListFacts.getD_range_map_rat _ _ _ hlt]
        exact App.grayAt_le_255 _ _ _ _ _ _
      · rw [List.getD_eq_getElem?_getD, List.getElem?_eq_none (by simpa using hge)]
        norm_num
    by_cases hcond : g1.getD p 0 < t
    · rw [if_pos hcond, if_pos (by push_cast; linarith)]
    · rw [if_neg hcond, if_neg (by push_cast; linarith)]
  -- conclude list equality
  have hlen : (App.bwPass D1 N
      (App.thresholdValAt (App.grayList ⟨img.width, img.height, D1⟩ 0 0 0 nr) none t)).length
      = D1.length := App.bwPass_length _ _ _
  apply List.ext_getElem hlen
  intro j hj1 hj2
  rw [← List.getD_eq_getElem _ 0 hj1, ← List.getD_eq_getElem _ 0 hj2]
  rw [App.bwPass_getD]
  by_cases hj : j < 4 * N ∧ j < D1.length
  · rw [if_pos hj]
    by_cases h3 : j % 4 = 3
    · rw [if_pos h3]
      rw [hD1, App.bwPass_getD, if_pos ⟨by omega, by omega⟩, if_pos h3]
    · rw [if_neg h3]
      rw [hval (j / 4) (by omega)]
      rw [hD1, App.bwPass_getD, if_pos ⟨by omega, by omega⟩, if_neg h3]
  · rw [if_neg hj]

/-- Witness for C7: a concrete 1×1 mid-gray image at threshold 128. -/
theorem dither_threshold_idempotent_witness :
    App.ditherImageData (App.ditherImageData ⟨1, 1, [100, 100, 100, 255]⟩
        "threshold" 128 0 0 0 true none (fun _ => 0) (fun _ _ => 0))
        "threshold" 128 0 0 0 true none (fun _ => 0) (fun _ _ => 0)
      = App.ditherImageData ⟨1, 1, [100, 100, 100, 255]⟩
        "threshold" 128 0 0 0 true none (fun _ => 0) (fun _ _ => 0) :=
  dither_threshold_idempotent ⟨1, 1, [100, 100, 100, 255]⟩ 128 true
    (fun _ => 0) (fun _ _ => 0) (by decide)

namespace App

/-- Gray value of a single mid-gray (100) pixel under default adjustments. -/
theorem grayAt_100 (nr : ℕ → ℚ) :
    grayAt [100, 100, 100, 255] 0 0 0 nr 0 = 100 := by
  rw [grayAt_zero_params]
  rw [show List.getD [100, 100, 100, 255] (0*4) 0 = 100 from rfl,
    show List.getD [100, 100, 100, 255] (0*4+1) 0 = 100 from rfl,
    show List.getD [100, 100, 100, 255] (0*4+2) 0 = 100 from rfl]
  norm_num [clamp255, min_def, max_def]

end App

/-- C6 (amended): for every algorithm name outside the recognized set the
dispatch raises no error only conditionally, in three behaviours.  A name
that is an inherited `Object.prototype` property (e.g. `"toString"`) makes
the kernel lookup truthy but non-iterable, and the `for..of` over it throws
a `TypeError` on every image with at least one pixel.  Any other name not
starting with `"ordered"` silently produces exactly the floyd output (the
`errorKernels[name] || errorKernels.floyd` fallback).  A name starting with
`"ordered"` (e.g. `"orderedz"`) is captured earlier by the
`startsWith("ordered")` branch and produces exactly the `ordered4` output. -/
theorem dither_unrecognized_fallback (s : String) (img : ImgData) (t b c n : ℚ)
    (serp : Bool) (edge : Option (List ℚ)) (nr : ℕ → ℚ) (mr : ℕ → ℕ → ℚ)
    (hs : s ∉ App.recognizedAlgorithms) :
    (s ∈ App.objectPrototypeProps → img.width * img.height ≠ 0 →
      App.ditherImageDataJS img s t b c n serp edge nr mr = Except.error ()) ∧
    (App.strStartsWith s "ordered" = false → s ∉ App.objectPrototypeProps →
      App.ditherImageDataJS img s t b c n serp edge nr mr
        = Except.ok (App.ditherImageData img "floyd" t b c n serp edge nr mr)) ∧
    (App.strStartsWith s "ordered" = true →
      App.ditherImageDataJS img s t b c n serp edge nr mr
        = Except.ok (App.ditherImageData img "ordered4" t b c n serp edge nr mr)) := by
  simp only [App.recognizedAlgorithms, List.mem_cons, List.not_mem_nil, or_false,
    not_or] at hs
  obtain ⟨h1, h2, h3, h4, h5, h6, h7, h8, h9, h10, h11, h12⟩ := hs
  have hkn : App.errorKernels s = none := by
    simp only [App.errorKernels]
    rw [if_neg h6, if_neg h7, if_neg h8, if_neg h9, if_neg h10, if_neg h11]
  refine ⟨?_, ?_, ?_⟩
  · intro hp hne
    have hso : App.strStartsWith s "ordered" = false := by
      have hp2 := hp
      simp only [App.objectPrototypeProps, List.mem_cons, List.not_mem_nil,
        or_false] at hp2
      rcases hp2 with rfl|rfl|rfl|rfl|rfl|rfl|rfl|rfl|rfl|rfl|rfl|rfl <;> decide
    have hk : App.errorKernelsJS s = App.JsKernelLookup.inherited := by
      simp only [App.errorKernelsJS, hkn]
      rw [if_pos hp]
    simp only [App.ditherImageDataJS]
    rw [if_neg h1, if_neg h5, if_neg (by simp [hso]), hk]
    rw [if_neg hne]
  · intro hso hnp
    have hk : App.errorKernelsJS s = App.JsKernelLookup.undef := by
      simp only [App.errorKernelsJS, hkn]
      rw [if_neg hnp]
    simp only [App.ditherImageDataJS, App.ditherImageData]
    rw [if_neg h1, if_neg h5, if_neg (by simp [hso])]
    simp only [hk]
    rw [if_neg (by decide), if_neg (by decide), if_neg (by decide)]
    rfl
  · intro hso
    simp only [App.ditherImageDataJS, App.ditherImageData]
    rw [if_neg h1, if_neg h5, if_pos hso]
    rw [if_neg h2, if_neg h3, if_neg h4]
    rw [if_neg (by decide), if_neg (by decide), if_pos (by decide)]
    rw [if_neg (by decide)]
    simp

/-- Witness for C6 (amended) on a 1×1 image at `"toString"` (inherited
`Object.prototype` property, the run throws), at `"foo"` (floyd fallback)
and at `"orderedz"` (ordered4 behaviour). -/
theorem dither_unrecognized_fallback_witness :
    App.ditherImageDataJS ⟨1, 1, [100, 100, 100, 255]⟩ "toString" 128 0 0 0 true none
        (fun _ => 0) (fun _ _ => 0) = Except.error () ∧
    App.ditherImageDataJS ⟨1, 1, [100, 100, 100, 255]⟩ "foo" 128 0 0 0 true none
        (fun _ => 0) (fun _ _ => 0)
      = Except.ok (App.ditherImageData ⟨1, 1, [100, 100, 100, 255]⟩ "floyd" 128 0 0 0
        true none (fun _ => 0) (fun _ _ => 0)) ∧
    App.ditherImageDataJS ⟨1, 1, [100, 100, 100, 255]⟩ "orderedz" 128 0 0 0 true none
        (fun _ => 0) (fun _ _ => 0)
      = Except.ok (App.ditherImageData ⟨1, 1, [100, 100, 100, 255]⟩ "ordered4" 128 0 0 0
        true none (fun _ => 0) (fun _ _ => 0)) := by
  refine ⟨?_, ?_, ?_⟩
  · exact (dither_unrecognized_fallback "toString" ⟨1, 1, [100, 100, 100, 255]⟩ 128 0 0 0
      true none (fun _ => 0) (fun _ _ => 0) (by decide)).1 (by decide) (by decide)
  · exact (dither_unrecognized_fallback "foo" ⟨1, 1, [100, 100, 100, 255]⟩ 128 0 0 0
      true none (fun _ => 0) (fun _ _ => 0) (by decide)).2.1 (by decide) (by decide)
  · exact (dither_unrecognized_fallback "orderedz" ⟨1, 1, [100, 100, 100, 255]⟩ 128 0 0 0
      true none (fun _ => 0) (fun _ _ => 0) (by decide)).2.2 (by decide)

/-- Counterexample for C6 as stated: `"orderedz"` is outside the recognized
algorithm set and does not raise an error, but its output differs from the
floyd output on a 1×1 mid-gray image — the `startsWith("ordered")` branch
handles it with the 4×4 Bayer matrix (yielding white, 255) while floyd
error-diffusion yields black (0). -/
theorem dither_orderedz_not_floyd :
    ("orderedz" ∉ App.recognizedAlgorithms) ∧
    App.ditherImageData ⟨1, 1, [100, 100, 100, 255]⟩ "orderedz" 128 0 0 0 true none
        (fun _ => 0) (fun _ _ => 0)
      ≠ App.ditherImageData ⟨1, 1, [100, 100, 100, 255]⟩ "floyd" 128 0 0 0 true none
        (fun _ => 0) (fun _ _ => 0) := by
  have hg : App.grayList ⟨1, 1, [100, 100, 100, 255]⟩ 0 0 0 (fun _ => 0) = [100] := by
    unfold App.grayList
    rw [show List.range (ImgData.width ⟨1, 1, [100, 100, 100, 255]⟩ *
        ImgData.height ⟨1, 1, [100, 100, 100, 255]⟩) = [0] from rfl]
    simp only [List.map_cons, List.map_nil]
    rw [App.grayAt_100]
  have hL : App.ditherImageData ⟨1, 1, [100, 100, 100, 255]⟩ "orderedz" 128 0 0 0 true none
      (fun _ => 0) (fun _ _ => 0) = ⟨1, 1, [255, 255, 255, 255]⟩ := by
    simp only [App.ditherImageData]
    rw [if_neg (by decide), if_neg (by decide), if_pos (by decide)]
    rw [if_neg (by decide), if_neg (by decide), if_neg (by decide)]
    rw [hg]
    have hval : App.orderedValAt [100] none App.orderedMatrix4 1 0 = 255 := by
      unfold App.orderedValAt
      simp only [App.orderedMatrix4]
      norm_num
    rw [show (1 : ℕ) * 1 = 1 from rfl, App.bwPass_succ, App.bwPass_zero, hval]
    rfl
  have hR : App.ditherImageData ⟨1, 1, [100, 100, 100, 255]⟩ "floyd" 128 0 0 0 true none
      (fun _ => 0) (fun _ _ => 0) = ⟨1, 1, [0, 0, 0, 255]⟩ := by
    simp only [App.ditherImageData]
    rw [if_neg (by decide), if_neg (by decide), if_neg (by decide)]
    rw [hg]
    rw [show App.errorKernels "floyd" = some App.floydKernel from rfl, Option.getD_some]
    unfold App.errorDiffuse App.edStep
    simp only [show List.range (ImgData.height ⟨1, 1, [100, 100, 100, 255]⟩) = [0] from rfl,
      List.foldl_cons, List.foldl_nil]
    rw [if_neg (by decide), if_neg (by decide)]
    simp only [show List.range (ImgData.width ⟨1, 1, [100, 100, 100, 255]⟩) = [0] from rfl,
      List.foldl_cons, List.foldl_nil]
    rw [show ([(100:ℚ)].getD (0 * 1 + 0) 0) = 100 from rfl]
    rw [if_pos (by norm_num : (100:ℚ) < 128)]
    decide
  constructor
  · decide
  · rw [hL, hR]
    intro hcontra
    have := congrArg (fun d => d.data.getD 0 0) hcontra
    simp at this

/-! ## Hardware cleanup (`applyHardwareCleanup` of `src/index.js`) -/

namespace App

/-- The flip decision of `applyHardwareCleanup` at pixel (x, y), computed
entirely from the untouched input buffer `src` (the source reads `data`, and
writes only into the `output` copy): `some 255` for an isolated black pixel,
`some 0` for a single-pixel gap, `none` when the pixel is left unchanged.
The neighbour offsets are visited in the source's loop order (`dy` outer,
`dx` inner, skipping (0,0)). -/
def flipVal (src : List ℕ) (w h : ℕ) (x y : ℕ) : Option ℕ :=
  let idx := (y * w + x) * 4
  if src.getD idx 0 = 0 then
    let blackNeighbors :=
      ([(-1, -1), (-1, 0), (-1, 1), (0, -1), (0, 1), (1, -1), (1, 0), (1, 1)]
          : List (ℤ × ℤ)).foldl
        (fun acc o =>
          if src.getD (((((y : ℤ) + o.1) * w) + ((x : ℤ) + o.2)) * 4).toNat 0 = 0
          then acc + 1 else acc)
        (0 : ℕ)
    if blackNeighbors = 0 then some 255 else none
  else if src.getD idx 0 = 255 then
    let leftBlack := 0 < x ∧ src.getD ((y * w + (x - 1)) * 4) 0 = 0
    let rightBlack := x < w - 1 ∧ src.getD ((y * w + (x + 1)) * 4) 0 = 0
    let topWhite := 0 < y ∧ src.getD (((y - 1) * w + x) * 4) 0 = 255
    let bottomWhite := y < h - 1 ∧ src.getD (((y + 1) * w + x) * 4) 0 = 255
    let topBlack := 0 < y ∧ src.getD (((y - 1) * w + x) * 4) 0 = 0
    let bottomBlack := y < h - 1 ∧ src.getD (((y + 1) * w + x) * 4) 0 = 0
    let leftWhite := 0 < x ∧ src.getD ((y * w + (x - 1)) * 4) 0 = 255
    let rightWhite := x < w - 1 ∧ src.getD ((y * w + (x + 1)) * 4) 0 = 255
    if (leftBlack ∧ rightBlack ∧ topWhite ∧ bottomWhite) ∨
        (topBlack ∧ bottomBlack ∧ leftWhite ∧ rightWhite) then some 0 else none
  else none

/-- One interior pixel of the cleanup pass: apply the flip decision (writes
R, G and B of the `output` copy; A is untouched). -/
def cleanStep (src : List ℕ) (w h : ℕ) (d : List ℕ) (x y : ℕ) : List ℕ :=
  match flipVal src w h x y with
  | some v => ((d.set ((y * w + x) * 4) v).set ((y * w + x) * 4 + 1) v).set
      ((y * w + x) * 4 + 2) v
  | none => d

/-- `applyHardwareCleanup(imgData)`: a single pass over the interior pixels
(`1 ≤ y ≤ h-2` outer, `1 ≤ x ≤ w-2` inner); all decisions read the original
`data`, all writes go to the `output` copy, which is copied back at the end
(`data.set(output)`). -/
def applyHardwareCleanup (img : ImgData) : ImgData :=
  ⟨img.width, img.height,
   (List.range' 1 (img.height - 2)).foldl
     (fun d y =>
       (List.range' 1 (img.width - 2)).foldl
         (fun d' x => cleanStep img.data img.width img.height d' x y) d)
     img.data⟩

/-- One RGBA pixel of an image, as a quadruple. -/
def pixAt (img : ImgData) (x y : ℕ) : ℕ × ℕ × ℕ × ℕ :=
  (img.data.getD ((y * img.width + x) * 4) 0,
   img.data.getD ((y * img.width + x) * 4 + 1) 0,
   img.data.getD ((y * img.width + x) * 4 + 2) 0,
   img.data.getD ((y * img.width + x) * 4 + 3) 0)

/-- The 3×3 neighbourhood of pixel (x, y), row-major (index 4 is the pixel
itself). -/
def nbhdOf (img : ImgData) (x y : ℕ) : List (ℕ × ℕ × ℕ × ℕ) :=
  [pixAt img (x-1) (y-1), pixAt img x (y-1), pixAt img (x+1) (y-1),
   pixAt img (x-1) y,     pixAt img x y,     pixAt img (x+1) y,
   pixAt img (x-1) (y+1), pixAt img x (y+1), pixAt img (x+1) (y+1)]

/-- The local rewrite rule of the cleanup pass, as a function of the 3×3
input neighbourhood alone (`nb`, row-major; channel `ch` of the output
pixel).  For interior pixels the bounds guards of the source are always
true, so they do not appear here; the isolated-pixel count runs over the
neighbours in the same order as the source loop. -/
def localRule (nb : List (ℕ × ℕ × ℕ × ℕ)) (ch : ℕ) : ℕ :=
  let R : ℕ → ℕ := fun k => (nb.getD k (0, 0, 0, 0)).1
  let center := nb.getD 4 (0, 0, 0, 0)
  let centerCh : ℕ :=
    if ch = 0 then center.1 else if ch = 1 then center.2.1
    else if ch = 2 then center.2.2.1 else center.2.2.2
  if R 4 = 0 then
    if ¬ R 0 = 0 ∧ ¬ R 1 = 0 ∧ ¬ R 2 = 0 ∧ ¬ R 3 = 0 ∧
       ¬ R 5 = 0 ∧ ¬ R 6 = 0 ∧ ¬ R 7 = 0 ∧ ¬ R 8 = 0
    then (if ch < 3 then 255 else centerCh) else centerCh
  else if R 4 = 255 then
    if (R 3 = 0 ∧ R 5 = 0 ∧ R 1 = 255 ∧ R 7 = 255) ∨
        (R 1 = 0 ∧ R 7 = 0 ∧ R 3 = 255 ∧ R 5 = 255) then
      (if ch < 3 then 0 else centerCh)
    else centerCh
  else centerCh

end App

namespace App

theorem cleanStep_length (src : List ℕ) (w h : ℕ) (d : List ℕ) (x y : ℕ) :
    (cleanStep src w h d x y).length = d.length := by
  unfold cleanStep
  cases flipVal src w h x y <;> simp

theorem cleanStep_getD (src : List ℕ) (w h : ℕ) (d : List ℕ) (x y j : ℕ) :
    (cleanStep src w h d x y).getD j 0 =
      if y * w + x = j / 4 ∧ j % 4 < 3 ∧ j < d.length ∧ (flipVal src w h x y).isSome
      then (flipVal src w h x y).getD 0
      else d.getD j 0 := by
  unfold cleanStep
  cases hf : flipVal src w h x y with
  | none => simp
  | some v =>
    simp only [Option.getD_some, Option.isSome_some, and_true]
    by_cases hA : y * w + x = j / 4
    · by_cases hB : j % 4 < 3
      · by_cases hC : j < d.length
        · rw [if_pos ⟨hA, hB, hC⟩]
          rcases (by omega : j % 4 = 0 ∨ j % 4 = 1 ∨ j % 4 = 2) with hr | hr | hr
          · rw [ListFacts.getD_set_other _ _ _ _ (by omega),
              ListFacts.getD_set_other _ _ _ _ (by omega)]
            have hj : (y * w + x) * 4 = j := by omega
            rw [hj, ListFacts.getD_set_self _ _ _ hC]
          · rw [ListFacts.getD_set_other _ _ _ _ (by omega)]
            have hj : (y * w + x) * 4 + 1 = j := by omega
            rw [hj, ListFacts.getD_set_self _ _ _ (by simpa using hC)]
          · have hj : (y * w + x) * 4 + 2 = j := by omega
            rw [hj, ListFacts.getD_set_self _ _ _ (by simpa using hC)]
        · rw [if_neg (by tauto)]
          have hl : (((d.set ((y*w+x)*4) v).set ((y*w+x)*4+1) v).set
              ((y*w+x)*4+2) v).length = d.length := by simp
          rw [ListFacts.getD_oob _ _ (by omega), ListFacts.getD_oob _ _ (by omega)]
      · rw [if_neg (by tauto)]
        rw [ListFacts.getD_set_other _ _ _ _ (by omega),
          ListFacts.getD_set_other _ _ _ _ (by omega),
          ListFacts.getD_set_other _ _ _ _ (by omega)]
    · rw [if_neg (by tauto)]
      rw [ListFacts.getD_set_other _ _ _ _ (by omega),
        ListFacts.getD_set_other _ _ _ _ (by omega),
        ListFacts.getD_set_other _ _ _ _ (by omega)]

theorem nested_fold_flatMap (step : List ℕ → ℕ → ℕ → List ℕ)
    (ys xs : List ℕ) (d0 : List ℕ) :
    ys.foldl (fun d y => xs.foldl (fun d' x => step d' x y) d) d0
      = (ys.flatMap fun y => xs.map fun x => (x, y)).foldl
          (fun d p => step d p.1 p.2) d0 := by
  induction ys generalizing d0 with
  | nil => rfl
  | cons y ys ih =>
    simp only [List.foldl_cons, List.flatMap_cons, List.foldl_append, List.foldl_map]
    exact ih _

theorem cleanStep_fold_length (src : List ℕ) (w h : ℕ) (pts : List (ℕ × ℕ))
    (d : List ℕ) :
    ((pts.foldl (fun d p => cleanStep src w h d p.1 p.2) d)).length = d.length := by
  induction pts generalizing d with
  | nil => rfl
  | cons p pts ih => rw [List.foldl_cons, ih, cleanStep_length]

theorem cleanStep_fold_getD (src : List ℕ) (w h : ℕ) (pts : List (ℕ × ℕ))
    (d : List ℕ) (j : ℕ) (hx : ∀ p ∈ pts, p.1 < w) :
    ((pts.foldl (fun d p => cleanStep src w h d p.1 p.2) d)).getD j 0 =
      if (j / 4 % w, j / 4 / w) ∈ pts ∧ j % 4 < 3 ∧ j < d.length ∧
          (flipVal src w h (j / 4 % w) (j / 4 / w)).isSome
      then (flipVal src w h (j / 4 % w) (j / 4 / w)).getD 0
      else d.getD j 0 := by
  induction pts generalizing d with
  | nil => simp
  | cons p pts ih =>
    rw [List.foldl_cons]
    rw [ih _ (fun q hq => hx q (List.mem_cons_of_mem p hq))]
    rw [cleanStep_length]
    have hpw : p.1 < w := hx p (List.mem_cons_self p pts)
    have hxyw : p.2 * w + p.1 = j / 4 → j / 4 % w = p.1 ∧ j / 4 / w = p.2 := by
      intro hp1
      constructor
      · rw [← hp1, Nat.mul_comm, Nat.mul_add_mod, Nat.mod_eq_of_lt hpw]
      · rw [← hp1, Nat.mul_comm p.2 w, Nat.mul_add_div (by omega),
          Nat.div_eq_of_lt hpw, Nat.add_zero]
    by_cases hmem : (j / 4 % w, j / 4 / w) ∈ pts
    · by_cases hrest : j % 4 < 3 ∧ j < d.length ∧
          (flipVal src w h (j / 4 % w) (j / 4 / w)).isSome
      · rw [if_pos ⟨hmem, hrest.1, hrest.2.1, hrest.2.2⟩,
          if_pos ⟨List.mem_cons_of_mem p hmem, hrest.1, hrest.2.1, hrest.2.2⟩]
      · rw [if_neg (by tauto)]
        rw [cleanStep_getD]
        rw [if_neg (by
          rintro ⟨hp1, hb, hc, hs⟩
          obtain ⟨h1, h2⟩ := hxyw hp1
          exact hrest ⟨hb, hc, by rw [h1, h2]; exact hs⟩)]
        rw [if_neg (by tauto)]
    · rw [if_neg (by tauto)]
      rw [cleanStep_getD]
      by_cases hp : p.2 * w + p.1 = j / 4 ∧ j % 4 < 3 ∧ j < d.length ∧
          (flipVal src w h p.1 p.2).isSome
      · obtain ⟨h1, h2⟩ := hxyw hp.1
        rw [if_pos hp]
        rw [if_pos ⟨by rw [h1, h2]; exact List.mem_cons_self p pts,
          hp.2.1, hp.2.2.1, by rw [h1, h2]; exact hp.2.2.2⟩]
        rw [h1, h2]
      · rw [if_neg hp]
        rw [if_neg (by
          rintro ⟨hm, hb, hc, hs⟩
          rcases List.mem_cons.mp hm with he | he
          · have h1 : j / 4 % w = p.1 := congrArg Prod.fst he
            have h2 : j / 4 / w = p.2 := congrArg Prod.snd he
            refine hp ⟨?_, hb, hc, by rw [← h1, ← h2]; exact hs⟩
            rw [← h1, ← h2, Nat.mul_comm (j / 4 / w) w]
            exact Nat.div_add_mod _ _
          · exact hmem he)]

theorem foldl_count_eq_zero {α : Type} (l : List α) (p : α → Prop) [DecidablePred p] (n : ℕ) :
    (l.foldl (fun acc o => if p o then acc + 1 else acc) n = 0) ↔
      (n = 0 ∧ ∀ o ∈ l, ¬ p o) := by
  induction l generalizing n with
  | nil => simp
  | cons a l ih =>
    simp only [List.foldl_cons]
    rw [ih]
    by_cases hpa : p a
    · rw [if_pos hpa]
      constructor
      · rintro ⟨hn, _⟩
        omega
      · rintro ⟨_, hall⟩
        exact absurd hpa (hall a (List.mem_cons_self _ _))
    · rw [if_neg hpa]
      constructor
      · rintro ⟨hn, hall⟩
        refine ⟨hn, fun o ho => ?_⟩
        rcases List.mem_cons.mp ho with rfl | ho
        · exact hpa
        · exact hall o ho
      · rintro ⟨hn, hall⟩
        exact ⟨hn, fun o ho => hall o (List.mem_cons_of_mem _ ho)⟩

theorem mem_grid (a b w hh : ℕ) :
    ((a, b) ∈ (List.range' 1 (hh - 2)).flatMap fun y =>
        (List.range' 1 (w - 2)).map fun x => (x, y)) ↔
      (1 ≤ a ∧ a < w - 1 ∧ 1 ≤ b ∧ b < hh - 1) := by
  simp only [List.mem_flatMap, List.mem_map, List.mem_range'_1, Prod.mk.injEq]
  constructor
  · rintro ⟨y, hy, x, hx, hxa, hyb⟩
    omega
  · intro hb
    exact ⟨b, by omega, a, by omega, rfl, rfl⟩

theorem applyHardwareCleanup_data (img : ImgData) :
    (applyHardwareCleanup img).data =
      ((List.range' 1 (img.height - 2)).flatMap fun y =>
        (List.range' 1 (img.width - 2)).map fun x => (x, y)).foldl
        (fun d p => cleanStep img.data img.width img.height d p.1 p.2) img.data := by
  unfold applyHardwareCleanup
  exact nested_fold_flatMap _ _ _ _

theorem applyHardwareCleanup_getD (img : ImgData) (j : ℕ) :
    (applyHardwareCleanup img).data.getD j 0 =
      if (1 ≤ j / 4 % img.width ∧ j / 4 % img.width < img.width - 1 ∧
          1 ≤ j / 4 / img.width ∧ j / 4 / img.width < img.height - 1) ∧
         j % 4 < 3 ∧ j < img.data.length ∧
         (flipVal img.data img.width img.height (j / 4 % img.width)
           (j / 4 / img.width)).isSome
      then (flipVal img.data img.width img.height (j / 4 % img.width)
        (j / 4 / img.width)).getD 0
      else img.data.getD j 0 := by
  rw [applyHardwareCleanup_data, cleanStep_fold_getD]
  · exact if_congr (and_congr (mem_grid _ _ _ _) Iff.rfl) rfl rfl
  · intro p hp
    have := (mem_grid p.1 p.2 img.width img.height).mp hp
    omega

set_option maxHeartbeats 2000000 in
/-- For interior pixels the neighbour indices of `flipVal` are the plain
natural-number flat indices and the bounds guards are all true. -/
theorem flipVal_interior (src : List ℕ) (w h x y : ℕ)
    (hx1 : 1 ≤ x) (hx2 : x + 1 < w) (hy1 : 1 ≤ y) (hy2 : y + 1 < h) :
    flipVal src w h x y =
      if src.getD ((y * w + x) * 4) 0 = 0 then
        if ¬ src.getD (((y-1) * w + (x-1)) * 4) 0 = 0 ∧
           ¬ src.getD (((y-1) * w + x) * 4) 0 = 0 ∧
           ¬ src.getD (((y-1) * w + (x+1)) * 4) 0 = 0 ∧
           ¬ src.getD ((y * w + (x-1)) * 4) 0 = 0 ∧
           ¬ src.getD ((y * w + (x+1)) * 4) 0 = 0 ∧
           ¬ src.getD (((y+1) * w + (x-1)) * 4) 0 = 0 ∧
           ¬ src.getD (((y+1) * w + x) * 4) 0 = 0 ∧
           ¬ src.getD (((y+1) * w + (x+1)) * 4) 0 = 0
        then some 255 else none
      else if src.getD ((y * w + x) * 4) 0 = 255 then
        if (src.getD ((y * w + (x-1)) * 4) 0 = 0 ∧ src.getD ((y * w + (x+1)) * 4) 0 = 0 ∧
            src.getD (((y-1) * w + x) * 4) 0 = 255 ∧ src.getD (((y+1) * w + x) * 4) 0 = 255) ∨
           (src.getD (((y-1) * w + x) * 4) 0 = 0 ∧ src.getD (((y+1) * w + x) * 4) 0 = 0 ∧
            src.getD ((y * w + (x-1)) * 4) 0 = 255 ∧ src.getD ((y * w + (x+1)) * 4) 0 = 255)
        then some 0 else none
      else none := by
  have hym : (y:ℤ) + (-1) = ((y - 1 : ℕ) : ℤ) := by omega
  have hxm : (x:ℤ) + (-1) = ((x - 1 : ℕ) : ℤ) := by omega
  have hy0 : (y:ℤ) + 0 = ((y : ℕ) : ℤ) := by omega
  have hx0 : (x:ℤ) + 0 = ((x : ℕ) : ℤ) := by omega
  have hyp : (y:ℤ) + 1 = ((y + 1 : ℕ) : ℤ) := by push_cast; ring
  have hxp : (x:ℤ) + 1 = ((x + 1 : ℕ) : ℤ) := by push_cast; ring
  have key : ∀ a b : ℕ, ((((b : ℕ) : ℤ) * w + ((a : ℕ) : ℤ)) * 4).toNat = (b * w + a) * 4 := by
    intro a b
    rw [show (((b : ℕ) : ℤ) * w + ((a : ℕ) : ℤ)) * 4 = (((b * w + a) * 4 : ℕ) : ℤ) by
      push_cast; ring]
    exact Int.toNat_natCast _
  simp only [flipVal]
  have hcount : (List.foldl
        (fun acc o =>
          if src.getD ((((y:ℤ) + o.1) * w + ((x:ℤ) + o.2)) * 4).toNat 0 = 0
          then acc + 1 else acc)
        (0:ℕ) [(-1, -1), (-1, 0), (-1, 1), (0, -1), (0, 1), (1, -1), (1, 0), (1, 1)] = 0) ↔
      (¬ src.getD (((y-1) * w + (x-1)) * 4) 0 = 0 ∧
       ¬ src.getD (((y-1) * w + x) * 4) 0 = 0 ∧
       ¬ src.getD (((y-1) * w + (x+1)) * 4) 0 = 0 ∧
       ¬ src.getD ((y * w + (x-1)) * 4) 0 = 0 ∧
       ¬ src.getD ((y * w + (x+1)) * 4) 0 = 0 ∧
       ¬ src.getD (((y+1) * w + (x-1)) * 4) 0 = 0 ∧
       ¬ src.getD (((y+1) * w + x) * 4) 0 = 0 ∧
       ¬ src.getD (((y+1) * w + (x+1)) * 4) 0 = 0) := by
    rw [foldl_count_eq_zero]
    simp only [List.forall_mem_cons, List.forall_mem_nil, and_true, true_and,
      eq_self_iff_true]
    rw [hym, hxm, hy0, hx0, hyp, hxp]
    simp only [key]
    simp
  have g1 : 0 < x := by omega
  have g2 : x < w - 1 := by omega
  have g3 : 0 < y := by omega
  have g4 : y < h - 1 := by omega
  have hgap : ((0 < x ∧ src.getD ((y * w + (x - 1)) * 4) 0 = 0) ∧
        (x < w - 1 ∧ src.getD ((y * w + (x + 1)) * 4) 0 = 0) ∧
          (0 < y ∧ src.getD (((y - 1) * w + x) * 4) 0 = 255) ∧
            (y < h - 1 ∧ src.getD (((y + 1) * w + x) * 4) 0 = 255) ∨
      (0 < y ∧ src.getD (((y - 1) * w + x) * 4) 0 = 0) ∧
        (y < h - 1 ∧ src.getD (((y + 1) * w + x) * 4) 0 = 0) ∧
          (0 < x ∧ src.getD ((y * w + (x - 1)) * 4) 0 = 255) ∧
            (x < w - 1 ∧ src.getD ((y * w + (x + 1)) * 4) 0 = 255)) ↔
      (src.getD ((y * w + (x-1)) * 4) 0 = 0 ∧ src.getD ((y * w + (x+1)) * 4) 0 = 0 ∧
        src.getD (((y-1) * w + x) * 4) 0 = 255 ∧ src.getD (((y+1) * w + x) * 4) 0 = 255 ∨
       src.getD (((y-1) * w + x) * 4) 0 = 0 ∧ src.getD (((y+1) * w + x) * 4) 0 = 0 ∧
        src.getD ((y * w + (x-1)) * 4) 0 = 255 ∧ src.getD ((y * w + (x+1)) * 4) 0 = 255) := by
    tauto
  simp only [hcount, hgap]

/-- Channel `ch` of the cleanup output at an interior pixel, in terms of the
flip decision computed from the untouched input. -/
theorem cleanup_interior_getD (img : ImgData)
    (hdl : img.data.length = 4 * (img.width * img.height))
    (x y ch : ℕ) (hx1 : 1 ≤ x) (hx2 : x + 1 < img.width)
    (hy1 : 1 ≤ y) (hy2 : y + 1 < img.height) (hch : ch < 4) :
    (applyHardwareCleanup img).data.getD ((y * img.width + x) * 4 + ch) 0 =
      match flipVal img.data img.width img.height x y with
      | some v => if ch < 3 then v else img.data.getD ((y * img.width + x) * 4 + ch) 0
      | none => img.data.getD ((y * img.width + x) * 4 + ch) 0 := by
  have hxw : x < img.width := by omega
  have hj4 : ((y * img.width + x) * 4 + ch) / 4 = y * img.width + x := by omega
  have hjm : ((y * img.width + x) * 4 + ch) % 4 = ch := by omega
  have hex : ((y * img.width + x) * 4 + ch) / 4 % img.width = x := by
    rw [hj4, Nat.mul_comm, Nat.mul_add_mod, Nat.mod_eq_of_lt hxw]
  have hey : ((y * img.width + x) * 4 + ch) / 4 / img.width = y := by
    rw [hj4, Nat.mul_comm y img.width, Nat.mul_add_div (by omega),
      Nat.div_eq_of_lt hxw, Nat.add_zero]
  have hpix : y * img.width + x < img.width * img.height := by
    calc y * img.width + x < y * img.width + img.width := by omega
      _ = (y + 1) * img.width := by ring
      _ ≤ img.height * img.width := Nat.mul_le_mul_right _ (by omega)
      _ = img.width * img.height := Nat.mul_comm _ _
  have hjlen : (y * img.width + x) * 4 + ch < img.data.length := by
    rw [hdl]
    omega
  rw [applyHardwareCleanup_getD, hex, hey, hjm]
  cases hf : flipVal img.data img.width img.height x y with
  | none => rw [if_neg (by simp [hf])]
  | some v =>
    by_cases hc3 : ch < 3
    · rw [if_pos ⟨⟨hx1, by omega, hy1, by omega⟩, hc3, hjlen, by simp⟩]
      simp [hc3]
    · rw [if_neg (by tauto)]
      simp [hc3]

/-- The local 3×3 rule agrees with the flip decision at interior pixels. -/
theorem localRule_eq_flipVal (img : ImgData) (x y ch : ℕ)
    (hx1 : 1 ≤ x) (hx2 : x + 1 < img.width) (hy1 : 1 ≤ y) (hy2 : y + 1 < img.height) (hch : ch < 4) :
    localRule (nbhdOf img x y) ch =
      match flipVal img.data img.width img.height x y with
      | some v => if ch < 3 then v else img.data.getD ((y * img.width + x) * 4 + ch) 0
      | none => img.data.getD ((y * img.width + x) * 4 + ch) 0 := by
  rw [flipVal_interior img.data img.width img.height x y hx1 hx2 hy1 hy2]
  simp only [localRule]
  simp only [show (nbhdOf img x y).getD 0 (0,0,0,0) = pixAt img (x-1) (y-1) from rfl,
      show (nbhdOf img x y).getD 1 (0,0,0,0) = pixAt img x (y-1) from rfl,
      show (nbhdOf img x y).getD 2 (0,0,0,0) = pixAt img (x+1) (y-1) from rfl,
      show (nbhdOf img x y).getD 3 (0,0,0,0) = pixAt img (x-1) y from rfl,
      show (nbhdOf img x y).getD 4 (0,0,0,0) = pixAt img x y from rfl,
      show (nbhdOf img x y).getD 5 (0,0,0,0) = pixAt img (x+1) y from rfl,
      show (nbhdOf img x y).getD 6 (0,0,0,0) = pixAt img (x-1) (y+1) from rfl,
      show (nbhdOf img x y).getD 7 (0,0,0,0) = pixAt img x (y+1) from rfl,
      show (nbhdOf img x y).getD 8 (0,0,0,0) = pixAt img (x+1) (y+1) from rfl]
  simp only [pixAt]
  by_cases h0 : img.data.getD ((y * img.width + x) * 4) 0 = 0
  · rw [if_pos h0, if_pos h0]
    by_cases hiso : ¬ img.data.getD (((y-1) * img.width + (x-1)) * 4) 0 = 0 ∧
        ¬ img.data.getD (((y-1) * img.width + x) * 4) 0 = 0 ∧
        ¬ img.data.getD (((y-1) * img.width + (x+1)) * 4) 0 = 0 ∧
        ¬ img.data.getD ((y * img.width + (x-1)) * 4) 0 = 0 ∧
        ¬ img.data.getD ((y * img.width + (x+1)) * 4) 0 = 0 ∧
        ¬ img.data.getD (((y+1) * img.width + (x-1)) * 4) 0 = 0 ∧
        ¬ img.data.getD (((y+1) * img.width + x) * 4) 0 = 0 ∧
        ¬ img.data.getD (((y+1) * img.width + (x+1)) * 4) 0 = 0
    · rw [if_pos hiso, if_pos hiso]
      by_cases hc3 : ch < 3
      · simp [hc3]
      · have hc : ch = 3 ∨ 4 ≤ ch := by omega
        simp only [if_neg hc3]
        rcases (by omega : ch = 0 ∨ ch = 1 ∨ ch = 2 ∨ ch = 3 ∨ 4 ≤ ch) with hc | hc | hc | hc | hc
        · omega
        · omega
        · omega
        · subst hc
          simp
        · omega
    · rw [if_neg hiso, if_neg hiso]
      rcases (by omega : ch = 0 ∨ ch = 1 ∨ ch = 2 ∨ ch = 3 ∨ 4 ≤ ch) with hc | hc | hc | hc | hc
      · subst hc; simp
      · subst hc; simp
      · subst hc; simp
      · subst hc; simp
      · omega
  · rw [if_neg h0, if_neg h0]
    by_cases h255 : img.data.getD ((y * img.width + x) * 4) 0 = 255
    · rw [if_pos h255, if_pos h255]
      by_cases hgap : (img.data.getD ((y * img.width + (x-1)) * 4) 0 = 0 ∧
            img.data.getD ((y * img.width + (x+1)) * 4) 0 = 0 ∧
            img.data.getD (((y-1) * img.width + x) * 4) 0 = 255 ∧
            img.data.getD (((y+1) * img.width + x) * 4) 0 = 255) ∨
          (img.data.getD (((y-1) * img.width + x) * 4) 0 = 0 ∧
            img.data.getD (((y+1) * img.width + x) * 4) 0 = 0 ∧
            img.data.getD ((y * img.width + (x-1)) * 4) 0 = 255 ∧
            img.data.getD ((y * img.width + (x+1)) * 4) 0 = 255)
      · rw [if_pos hgap, if_pos hgap]
        by_cases hc3 : ch < 3
        · simp [hc3]
        · simp only [if_neg hc3]
          rcases (by omega : ch = 0 ∨ ch = 1 ∨ ch = 2 ∨ ch = 3 ∨ 4 ≤ ch) with hc | hc | hc | hc | hc
          · omega
          · omega
          · omega
          · subst hc; simp
          · omega
      · rw [if_neg hgap, if_neg hgap]
        rcases (by omega : ch = 0 ∨ ch = 1 ∨ ch = 2 ∨ ch = 3 ∨ 4 ≤ ch) with hc | hc | hc | hc | hc
        · subst hc; simp
        · subst hc; simp
        · subst hc; simp
        · subst hc; simp
        · omega
    · rw [if_neg h255, if_neg h255]
      rcases (by omega : ch = 0 ∨ ch = 1 ∨ ch = 2 ∨ ch = 3 ∨ 4 ≤ ch) with hc | hc | hc | hc | hc
      · subst hc; simp
      · subst hc; simp
      · subst hc; simp
      · subst hc; simp
      · omega

/-- **C9.** `applyHardwareCleanup`, applied once to a two-level image: every
interior black pixel (red channel 0) with zero black 8-neighbours has its RGB
channels flipped to white 255, and every interior white pixel (red channel 255)
whose top and bottom neighbours are both black while left and right are both
white — or left and right both black while top and bottom are both white — has
its RGB channels flipped to black 0. -/
theorem cleanup_flip_rules (img : ImgData)
    (hdl : img.data.length = 4 * (img.width * img.height))
    (x y ch : ℕ) (hx1 : 1 ≤ x) (hx2 : x + 1 < img.width)
    (hy1 : 1 ≤ y) (hy2 : y + 1 < img.height) (hch : ch < 3) :
    (img.data.getD ((y * img.width + x) * 4) 0 = 0 →
      (¬ img.data.getD (((y-1) * img.width + (x-1)) * 4) 0 = 0 ∧
       ¬ img.data.getD (((y-1) * img.width + x) * 4) 0 = 0 ∧
       ¬ img.data.getD (((y-1) * img.width + (x+1)) * 4) 0 = 0 ∧
       ¬ img.data.getD ((y * img.width + (x-1)) * 4) 0 = 0 ∧
       ¬ img.data.getD ((y * img.width + (x+1)) * 4) 0 = 0 ∧
       ¬ img.data.getD (((y+1) * img.width + (x-1)) * 4) 0 = 0 ∧
       ¬ img.data.getD (((y+1) * img.width + x) * 4) 0 = 0 ∧
       ¬ img.data.getD (((y+1) * img.width + (x+1)) * 4) 0 = 0) →
      (applyHardwareCleanup img).data.getD ((y * img.width + x) * 4 + ch) 0 = 255) ∧
    (img.data.getD ((y * img.width + x) * 4) 0 = 255 →
      ((img.data.getD ((y * img.width + (x-1)) * 4) 0 = 0 ∧
        img.data.getD ((y * img.width + (x+1)) * 4) 0 = 0 ∧
        img.data.getD (((y-1) * img.width + x) * 4) 0 = 255 ∧
        img.data.getD (((y+1) * img.width + x) * 4) 0 = 255) ∨
       (img.data.getD (((y-1) * img.width + x) * 4) 0 = 0 ∧
        img.data.getD (((y+1) * img.width + x) * 4) 0 = 0 ∧
        img.data.getD ((y * img.width + (x-1)) * 4) 0 = 255 ∧
        img.data.getD ((y * img.width + (x+1)) * 4) 0 = 255)) →
      (applyHardwareCleanup img).data.getD ((y * img.width + x) * 4 + ch) 0 = 0) := by
  constructor
  · intro h0 hiso
    have hf : flipVal img.data img.width img.height x y = some 255 := by
      rw [flipVal_interior img.data img.width img.height x y hx1 hx2 hy1 hy2,
        if_pos h0, if_pos hiso]
    rw [cleanup_interior_getD img hdl x y ch hx1 hx2 hy1 hy2 (by omega), hf]
    simp [hch]
  · intro h255 hgap
    have hf : flipVal img.data img.width img.height x y = some 0 := by
      rw [flipVal_interior img.data img.width img.height x y hx1 hx2 hy1 hy2,
        if_neg (by rw [h255]; omega), if_pos h255, if_pos hgap]
    rw [cleanup_interior_getD img hdl x y ch hx1 hx2 hy1 hy2 (by omega), hf]
    simp [hch]

/-- Witness for C9: the isolated centre black pixel of a 3×3 otherwise
all-white image is flipped to white, and the centre of a single-pixel vertical
gap (black above and below, white left and right) is filled to black. -/
theorem cleanup_flip_rules_witness :
    (applyHardwareCleanup ⟨3, 3, [255,255,255,255, 255,255,255,255, 255,255,255,255,
      255,255,255,255, 0,0,0,255, 255,255,255,255,
      255,255,255,255, 255,255,255,255, 255,255,255,255]⟩).data.getD
        ((1 * 3 + 1) * 4) 0 = 255 ∧
    (applyHardwareCleanup ⟨3, 3, [255,255,255,255, 0,0,0,255, 255,255,255,255,
      255,255,255,255, 255,255,255,255, 255,255,255,255,
      255,255,255,255, 0,0,0,255, 255,255,255,255]⟩).data.getD
        ((1 * 3 + 1) * 4) 0 = 0 :=
  ⟨(cleanup_flip_rules ⟨3, 3, [255,255,255,255, 255,255,255,255, 255,255,255,255,
      255,255,255,255, 0,0,0,255, 255,255,255,255,
      255,255,255,255, 255,255,255,255, 255,255,255,255]⟩ (by decide)
      1 1 0 (by decide) (by decide) (by decide) (by decide) (by decide)).1
      (by decide) (by decide),
   (cleanup_flip_rules ⟨3, 3, [255,255,255,255, 0,0,0,255, 255,255,255,255,
      255,255,255,255, 255,255,255,255, 255,255,255,255,
      255,255,255,255, 0,0,0,255, 255,255,255,255]⟩ (by decide)
      1 1 0 (by decide) (by decide) (by decide) (by decide) (by decide)).2
      (by decide) (Or.inr (by decide))⟩

/-- **C10.** `applyHardwareCleanup` computes every flip decision from an
unmodified snapshot of its input: each interior output channel is
`localRule` applied to the input image's 3×3 neighbourhood at that position
(so flips made during the pass never influence another pixel's decision),
and the 1-pixel border rows and columns are returned unchanged. -/
theorem cleanup_local_snapshot (img : ImgData)
    (hdl : img.data.length = 4 * (img.width * img.height)) :
    (∀ x y ch, 1 ≤ x → x + 1 < img.width → 1 ≤ y → y + 1 < img.height → ch < 4 →
      (applyHardwareCleanup img).data.getD ((y * img.width + x) * 4 + ch) 0 =
        localRule (nbhdOf img x y) ch) ∧
    (∀ x y ch, x < img.width → y < img.height → ch < 4 →
      ¬ (1 ≤ x ∧ x + 1 < img.width ∧ 1 ≤ y ∧ y + 1 < img.height) →
      (applyHardwareCleanup img).data.getD ((y * img.width + x) * 4 + ch) 0 =
        img.data.getD ((y * img.width + x) * 4 + ch) 0) := by
  constructor
  · intro x y ch hx1 hx2 hy1 hy2 hch
    rw [cleanup_interior_getD img hdl x y ch hx1 hx2 hy1 hy2 hch,
      localRule_eq_flipVal img x y ch hx1 hx2 hy1 hy2 hch]
  · intro x y ch hxw hyh hch hborder
    have hj4 : ((y * img.width + x) * 4 + ch) / 4 = y * img.width + x := by omega
    have hex : ((y * img.width + x) * 4 + ch) / 4 % img.width = x := by
      rw [hj4, Nat.mul_comm, Nat.mul_add_mod, Nat.mod_eq_of_lt hxw]
    have hey : ((y * img.width + x) * 4 + ch) / 4 / img.width = y := by
      rw [hj4, Nat.mul_comm y img.width, Nat.mul_add_div (by omega),
        Nat.div_eq_of_lt hxw, Nat.add_zero]
    rw [applyHardwareCleanup_getD, hex, hey]
    exact if_neg (by rintro ⟨⟨h1, h2, h3, h4⟩, -⟩; exact hborder ⟨h1, by omega, h3, by omega⟩)

/-- Witness for C10: on a 3×3 image the centre output channel equals the local
rule on the input neighbourhood, and a corner channel is returned unchanged. -/
theorem cleanup_local_snapshot_witness :
    (applyHardwareCleanup ⟨3, 3, [7,7,7,255, 255,255,255,255, 255,255,255,255,
      255,255,255,255, 0,0,0,255, 255,255,255,255,
      255,255,255,255, 255,255,255,255, 255,255,255,255]⟩).data.getD
        ((1 * 3 + 1) * 4 + 0) 0 =
      localRule (nbhdOf ⟨3, 3, [7,7,7,255, 255,255,255,255, 255,255,255,255,
        255,255,255,255, 0,0,0,255, 255,255,255,255,
        255,255,255,255, 255,255,255,255, 255,255,255,255]⟩ 1 1) 0 ∧
    (applyHardwareCleanup ⟨3, 3, [7,7,7,255, 255,255,255,255, 255,255,255,255,
      255,255,255,255, 0,0,0,255, 255,255,255,255,
      255,255,255,255, 255,255,255,255, 255,255,255,255]⟩).data.getD
        ((0 * 3 + 0) * 4 + 0) 0 =
      (⟨3, 3, [7,7,7,255, 255,255,255,255, 255,255,255,255,
        255,255,255,255, 0,0,0,255, 255,255,255,255,
        255,255,255,255, 255,255,255,255, 255,255,255,255]⟩ : ImgData).data.getD
        ((0 * 3 + 0) * 4 + 0) 0 :=
  ⟨(cleanup_local_snapshot ⟨3, 3, [7,7,7,255, 255,255,255,255, 255,255,255,255,
      255,255,255,255, 0,0,0,255, 255,255,255,255,
      255,255,255,255, 255,255,255,255, 255,255,255,255]⟩ (by decide)).1
      1 1 0 (by decide) (by decide) (by decide) (by decide) (by decide),
   (cleanup_local_snapshot ⟨3, 3, [7,7,7,255, 255,255,255,255, 255,255,255,255,
      255,255,255,255, 0,0,0,255, 255,255,255,255,
      255,255,255,255, 255,255,255,255, 255,255,255,255]⟩ (by decide)).2
      0 0 0 (by decide) (by decide) (by decide) (by decide)⟩

/-! ### C8: the blue-noise map and the randomness it consumes

`generateBlueNoiseMap(64)` is called afresh inside every `blue_noise`
invocation of `ditherImageData`, consuming new `Math.random()` draws.  The
two explicit streams below agree everywhere except in the very last map
iteration, and already produce different maps — and different dither
outputs on the same input image. -/

/-- First stream of the counterexample: every draw is 0. -/
def bnR1 : ℕ → ℕ → ℚ := fun _ _ => 0

/-- Second stream: identical to `bnR1` except that the single candidate draw
of the last map iteration is `1/4096`. -/
def bnR2 : ℕ → ℕ → ℚ := fun i _ => if i = 4095 then 1/4096 else 0

/-- The rank value written by iteration `i` of the map generator. -/
def bnVal (i : ℕ) : ℕ := Int.toNat ⌊(i : ℚ) / (((64:ℕ):ℚ) * ((64:ℕ):ℚ)) * 256⌋

/-- A fold whose step fixes the state is the identity. -/
theorem bnFoldlFixed {α β : Type} (f : α → β → α) (st : α) (l : List β)
    (h : ∀ a ∈ l, f st a = st) : l.foldl f st = st := by
  induction l with
  | nil => rfl
  | cons b l ih =>
    rw [List.foldl_cons, h b (by simp)]
    exact ih (fun a ha => h a (by simp [ha]))

/-- The distance scan ignores any block of unused cells. -/
theorem bnScanFalse (size cand : ℕ) :
    ∀ (m k : ℕ) (acc : DistVal),
      (List.enumFrom k (List.replicate m false)).foldl
        (fun acc ju => if ju.2 then minD acc (sqDist size cand ju.1) else acc) acc
        = acc := by
  intro m
  induction m with
  | zero => intro k acc; rfl
  | succ m ih =>
    intro k acc
    rw [List.replicate_succ,
      show List.enumFrom k (false :: List.replicate m false)
        = (k, false) :: List.enumFrom (k+1) (List.replicate m false) from rfl,
      List.foldl_cons]
    exact ih (k+1) acc

/-- No cell used yet: the scan stays at `Infinity`. -/
theorem minDistScan_replicate_false (n size cand : ℕ) :
    minDistScan (List.replicate n false) size cand = DistVal.inf :=
  bnScanFalse size cand n 0 DistVal.inf

/-- Only cell 0 used: the scan returns the distance to cell 0. -/
theorem minDistScan_u1 (size cand : ℕ) :
    minDistScan ((List.replicate 4096 false).set 0 true) size cand =
      DistVal.fin (sqDist size cand 0) := by
  rw [show (List.replicate 4096 false).set 0 true
      = true :: List.replicate 4095 false from rfl]
  rw [minDistScan]
  rw [show (true :: List.replicate 4095 false).enum
      = (0, true) :: List.enumFrom 1 (List.replicate 4095 false) from rfl]
  rw [List.foldl_cons]
  exact bnScanFalse size cand 4095 1 _

/-- Iteration 0 with all-zero draws claims cell 0 with rank value 0. -/
theorem blueNoiseIter_zero (rng : ℕ → ℕ → ℚ) (hr : ∀ a, rng 0 a = 0) :
    blueNoiseIter rng 64 (List.replicate 4096 false, List.replicate 4096 0) 0 =
      ((List.replicate 4096 false).set 0 true, (List.replicate 4096 0).set 0 0) := by
  have hc : (⌊(0:ℚ) * (((64:ℕ):ℚ) * ((64:ℕ):ℚ))⌋).toNat = 0 := by
    norm_num
  simp only [blueNoiseIter]
  rw [show min 100 (64 * 64 - 0) = 100 from rfl, List.range_eq_range',
    show List.range' 0 100 = 0 :: List.range' 1 99 from rfl, List.foldl_cons]
  have hstep : attemptStep (rng 0) (List.replicate 4096 false) 64 (DistVal.negOne, 0) 0
      = (DistVal.inf, 0) := by
    simp only [attemptStep, hr 0, hc]
    rw [show (List.replicate 4096 false).getD 0 false = false from rfl]
    rw [minDistScan_replicate_false]
    rfl
  rw [hstep]
  rw [bnFoldlFixed _ _ _ (fun a _ => by
    simp only [attemptStep, hr a, hc]
    rw [show (List.replicate 4096 false).getD 0 false = false from rfl]
    rw [minDistScan_replicate_false]
    rfl)]
  rw [show Int.toNat ⌊((0:ℕ) : ℚ) / (((64:ℕ):ℚ) * ((64:ℕ):ℚ)) * 256⌋ = 0 by norm_num]

/-- Once cell 0 is used, an iteration whose draws are all 0 only re-claims
cell 0: every candidate is the used cell 0, so `bestIdx` keeps its default 0. -/
theorem blueNoiseIter_stuck (rng : ℕ → ℕ → ℚ) (i : ℕ) (hr : ∀ a, rng i a = 0)
    (used : List Bool) (hu : used.getD 0 false = true) (m : List ℕ) :
    blueNoiseIter rng 64 (used, m) i = (used.set 0 true, m.set 0 (bnVal i)) := by
  have hc : (⌊(0:ℚ) * (((64:ℕ):ℚ) * ((64:ℕ):ℚ))⌋).toNat = 0 := by
    norm_num
  simp only [blueNoiseIter]
  rw [bnFoldlFixed _ _ _ (fun a _ => by
    simp only [attemptStep, hr a, hc, hu]
    rfl)]
  rfl

/-- Folding a block of stuck iterations keeps rewriting cell 0 of the map;
only the last rank value survives. -/
theorem bnFold_stuck (rng : ℕ → ℕ → ℚ) :
    ∀ (n s x : ℕ), (∀ i, s ≤ i → i < s + (n+1) → ∀ a, rng i a = 0) →
      (List.range' s (n+1)).foldl (blueNoiseIter rng 64)
        ((List.replicate 4096 false).set 0 true, (List.replicate 4096 0).set 0 x) =
      ((List.replicate 4096 false).set 0 true,
       (List.replicate 4096 0).set 0 (bnVal (s + n))) := by
  intro n
  induction n with
  | zero =>
    intro s x h
    rw [show List.range' s 1 = [s] from rfl, List.foldl_cons, List.foldl_nil]
    rw [blueNoiseIter_stuck rng s (fun a => h s (by omega) (by omega) a)
      ((List.replicate 4096 false).set 0 true) rfl ((List.replicate 4096 0).set 0 x)]
    rw [List.set_set, List.set_set]
    rfl
  | succ n ih =>
    intro s x h
    rw [show List.range' s (n+2) = s :: List.range' (s+1) (n+1) from rfl,
      List.foldl_cons]
    rw [blueNoiseIter_stuck rng s (fun a => h s (by omega) (by omega) a)
      ((List.replicate 4096 false).set 0 true) rfl ((List.replicate 4096 0).set 0 x)]
    rw [List.set_set, List.set_set]
    rw [ih (s+1) (bnVal s) (fun i h1 h2 a => h i (by omega) (by omega) a)]
    rw [show s + 1 + n = s + (n+1) from by omega]

theorem bnVal_4094 : bnVal 4094 = 255 := by
  rw [bnVal,
    show ⌊((4094:ℕ):ℚ) / (((64:ℕ):ℚ) * ((64:ℕ):ℚ)) * 256⌋ = 255 by
      rw [Int.floor_eq_iff] <;> norm_num]
  rfl

theorem bnVal_4095 : bnVal 4095 = 255 := by
  rw [bnVal,
    show ⌊((4095:ℕ):ℚ) / (((64:ℕ):ℚ) * ((64:ℕ):ℚ)) * 256⌋ = 255 by
      rw [Int.floor_eq_iff] <;> norm_num]
  rfl

/-- Under the all-zero stream the generator claims cell 0 over and over: the
final map is 255 at cell 0 and 0 everywhere else. -/
theorem map1_eq : generateBlueNoiseMap bnR1 64 = (List.replicate 4096 0).set 0 255 := by
  rw [generateBlueNoiseMap,
    show (64 * 64 : ℕ) = 4096 from rfl, List.range_eq_range',
    show List.range' 0 4096 = 0 :: List.range' 1 4095 from rfl, List.foldl_cons,
    blueNoiseIter_zero bnR1 (fun a => rfl)]
  rw [bnFold_stuck bnR1 4094 1 0 (fun i h1 h2 a => rfl)]
  rw [show (1 + 4094 : ℕ) = 4095 from rfl, bnVal_4095]

/-- The last iteration under `bnR2` has exactly one attempt, drawing the
unused cell 1, whose distance to the only used cell 0 beats the initial −1. -/
theorem blueNoiseIter_last (m : List ℕ) :
    blueNoiseIter bnR2 64 ((List.replicate 4096 false).set 0 true, m) 4095 =
      (((List.replicate 4096 false).set 0 true).set 1 true, m.set 1 (bnVal 4095)) := by
  have hc : (⌊bnR2 4095 0 * (((64:ℕ):ℚ) * ((64:ℕ):ℚ))⌋).toNat = 1 := by
    rw [show bnR2 4095 0 = 1/4096 from rfl,
      show (1/4096 : ℚ) * (((64:ℕ):ℚ) * ((64:ℕ):ℚ)) = 1 by norm_num]
    norm_num
  simp only [blueNoiseIter]
  rw [show min 100 (64 * 64 - 4095) = 1 from rfl,
    show List.range 1 = [0] from rfl, List.foldl_cons, List.foldl_nil]
  simp only [attemptStep, hc]
  rw [show ((List.replicate 4096 false).set 0 true).getD 1 false = false from rfl]
  rw [minDistScan_u1]
  rfl

/-- Under `bnR2` the final map additionally has 255 at cell 1. -/
theorem map2_eq : generateBlueNoiseMap bnR2 64 =
    ((List.replicate 4096 0).set 0 255).set 1 255 := by
  have hinner : List.foldl (blueNoiseIter bnR2 64)
      (List.replicate 4096 false, List.replicate 4096 0) (List.range 4095) =
      ((List.replicate 4096 false).set 0 true, (List.replicate 4096 0).set 0 255) := by
    rw [List.range_eq_range',
      show List.range' 0 4095 = 0 :: List.range' 1 4094 from rfl, List.foldl_cons,
      blueNoiseIter_zero bnR2 (fun a => rfl)]
    rw [bnFold_stuck bnR2 4093 1 0 (fun i h1 h2 a => by
      rw [show bnR2 i a = if i = 4095 then 1/4096 else 0 from rfl, if_neg (by omega)])]
    rw [show (1 + 4093 : ℕ) = 4094 from rfl, bnVal_4094]
  rw [generateBlueNoiseMap,
    show (64 * 64 : ℕ) = 4096 from rfl, List.range_succ, List.foldl_append, hinner,
    List.foldl_cons, List.foldl_nil, blueNoiseIter_last, bnVal_4095]

/-- The `blue_noise` branch of `ditherImageData`: a fresh map is generated
from the invocation's own random draws and then tiled as the threshold. -/
theorem dither_blue_noise_eq (img : ImgData) (t b c n : ℚ) (serp : Bool)
    (edge : Option (List ℚ)) (nr : ℕ → ℚ) (mr : ℕ → ℕ → ℚ) :
    ditherImageData img "blue_noise" t b c n serp edge nr mr
      = ⟨img.width, img.height,
         bwPass img.data (img.width * img.height)
           (blueValAt (grayList img b c n nr) edge (generateBlueNoiseMap mr 64)
             img.width)⟩ := rfl

/-- The gray field of the 2×1 mid-gray counterexample image is `[128, 128]`. -/
theorem gray128 (nr : ℕ → ℚ) (i : ℕ) (hi : i < 2) :
    (grayList ⟨2, 1, [128,128,128,255, 128,128,128,255]⟩ 0 0 0 nr).getD i 0 = 128 := by
  rw [grayList]
  rw [show ((⟨2, 1, [128,128,128,255, 128,128,128,255]⟩ : ImgData).width
    * (⟨2, 1, [128,128,128,255, 128,128,128,255]⟩ : ImgData).height) = 2 from rfl]
  rw [ListFacts.getD_range_map_rat 2 _ i hi]
  rw [grayAt_zero_params]
  interval_cases i <;> norm_num [clamp255, min_def, max_def]

set_option maxHeartbeats 1000000 in
/-- Pixel 1 (data offset 4) of the 2×1 mid-gray image after `blue_noise`
dithering, as a function of the generated map's cell 1. -/
theorem blue_out_getD (nr : ℕ → ℚ) (mr : ℕ → ℕ → ℚ) (m : List ℕ)
    (hm : generateBlueNoiseMap mr 64 = m) :
    (ditherImageData ⟨2, 1, [128,128,128,255, 128,128,128,255]⟩ "blue_noise"
        128 0 0 0 false none nr mr).data.getD 4 0 =
      if (128:ℚ) < ((m.getD 1 0 : ℕ) : ℚ) then 0 else 255 := by
  rw [dither_blue_noise_eq, hm]
  rw [bwPass_getD]
  rw [if_pos (by constructor <;> simp)]
  rw [if_neg (by norm_num)]
  rw [show (4/4 : ℕ) = 1 from rfl]
  simp only [blueValAt]
  simp only [show ((1 / 2 % 64) * 64 + 1 % 2 % 64 : ℕ) = 1 from rfl,
    gray128 nr 1 (by norm_num)]

/-- C8 (counterexample): identical image, parameters, edge map and per-pixel
noise stream, but the two runs consume different `Math.random()` draws inside
`generateBlueNoiseMap` — and produce different output images. -/
theorem blue_noise_run_to_run_differs :
    ditherImageData ⟨2, 1, [128,128,128,255, 128,128,128,255]⟩ "blue_noise"
        128 0 0 0 false none (fun _ => 0) bnR1 ≠
      ditherImageData ⟨2, 1, [128,128,128,255, 128,128,128,255]⟩ "blue_noise"
        128 0 0 0 false none (fun _ => 0) bnR2 := by
  intro heq
  have h1 := blue_out_getD (fun _ => 0) bnR1
    ((List.replicate 4096 0).set 0 255) map1_eq
  have h2 := blue_out_getD (fun _ => 0) bnR2
    (((List.replicate 4096 0).set 0 255).set 1 255) map2_eq
  rw [heq] at h1
  rw [h2] at h1
  have hv1 : ((List.replicate 4096 0).set 0 255).getD 1 0 = 0 := by
    rw [ListFacts.getD_set_other _ _ _ _ (by omega),
      ListFacts.getD_replicate _ _ _ (by omega)]
  have hv2 : ((((List.replicate 4096 0).set 0 255).set 1 255)).getD 1 0 = 255 := by
    rw [ListFacts.getD_set_self _ _ _ (by
      rw [List.length_set, List.length_replicate]
      omega)]
  simp only [hv1, hv2] at h1
  norm_num at h1

/-- **C8** (amended): `blue_noise` dithering is deterministic exactly up to
the regenerated threshold map — whenever two invocations' random draws
produce the same 64×64 map, the outputs on identical inputs and parameters
coincide.  (The unamended claim fails: see the counterexample above.) -/
theorem blue_noise_deterministic_given_map (img : ImgData) (t b c n : ℚ)
    (serp : Bool) (edge : Option (List ℚ)) (nr : ℕ → ℚ) (r1 r2 : ℕ → ℕ → ℚ)
    (h : generateBlueNoiseMap r1 64 = generateBlueNoiseMap r2 64) :
    ditherImageData img "blue_noise" t b c n serp edge nr r1 =
      ditherImageData img "blue_noise" t b c n serp edge nr r2 := by
  rw [dither_blue_noise_eq, dither_blue_noise_eq, h]

/-- Witness for C8: two invocations with literally the same draw stream
produce the same map, hence the same output. -/
theorem blue_noise_deterministic_given_map_witness :
    ditherImageData ⟨1, 1, [0,0,0,255]⟩ "blue_noise" 128 0 0 0 false none
        (fun _ => 0) (fun _ _ => 0) =
      ditherImageData ⟨1, 1, [0,0,0,255]⟩ "blue_noise" 128 0 0 0 false none
        (fun _ => 0) (fun _ _ => 0) :=
  blue_noise_deterministic_given_map ⟨1, 1, [0,0,0,255]⟩ 128 0 0 0 false none
    (fun _ => 0) (fun _ _ => 0) (fun _ _ => 0) rfl

end App
